import Mathlib

/-!
Verification of the protocol engine of the 0install slave sample client
(src/ocaml/sample_client.py): message framing over a byte stream
(send_chunk / get_chunk), ticket allocation (invoke), and the dispatch loop
(handle_next_chunk).

The interchange format is JSON as used by the client.  Python values that
cross the wire are modelled by the mutual inductive type Json below; numbers
are modelled as integers (the client only ever exchanges integers, booleans,
strings, lists and string-keyed dicts; floating point is outside the model).
Python strings are modelled as lists of unicode scalar values (Lean Char);
lone surrogates, which Lean Char cannot represent, are outside the model.
Byte streams are lists of naturals &lt; 256.
-/

set_option maxHeartbeats 1000000
set_option maxRecDepth 8000

mutual

/-- Python values representable in the interchange format.  JsonList models a
Python list, JsonMembers a Python dict as its insertion-ordered key/value
pairs (a real dict has pairwise-distinct keys; see wellFormed). -/
inductive Json where
  | null : Json
  | bool (b : Bool) : Json
  | num (n : Int) : Json
  | str (s : List Char) : Json
  | arr (xs : JsonList) : Json
  | obj (ms : JsonMembers) : Json

inductive JsonList where
  | nil : JsonList
  | cons (hd : Json) (tl : JsonList) : JsonList

inductive JsonMembers where
  | nil : JsonMembers
  | cons (k : List Char) (v : Json) (tl : JsonMembers) : JsonMembers

end

/-- Build a JsonList from a Lean list (notation helper for concrete values). -/
def jlist : List Json → JsonList
  | [] => .nil
  | x :: xs => .cons x (jlist xs)

/-- Length of a JsonList. -/
def JsonList.length : JsonList → Nat
  | .nil => 0
  | .cons _ tl => 1 + tl.length

/-- The decimal digit character for d &lt; 10. -/
def digitChar (d : Nat) : Char := Char.ofNat (48 + d)

/-- The lowercase hexadecimal digit character for d &lt; 16 (as produced by
Python's x format code and by the json module's u escapes). -/
def hexDigitChar (d : Nat) : Char :=
  if d < 10 then Char.ofNat (48 + d) else Char.ofNat (87 + d)

/-- Decimal digits of n, most significant first, empty for 0.  Structural in
the fuel argument; fuel ≥ n makes it total (the digit count is ≤ n). -/
def natDecAux : Nat → Nat → List Char
  | 0, _ => []
  | fuel + 1, n => if n = 0 then [] else natDecAux fuel (n / 10) ++ [digitChar (n % 10)]

/-- Python str of a nonnegative integer: decimal digits, at least one. -/
def natDec (n : Nat) : List Char :=
  if n = 0 then ['0'] else natDecAux n n

/-- Python str of an int (as produced by json.dumps for our integer model). -/
def intDump (i : Int) : List Char :=
  if i < 0 then '-' :: natDec i.natAbs else natDec i.natAbs

/-- Hexadecimal digits of n, most significant first, empty for 0. -/
def natHexAux : Nat → Nat → List Char
  | 0, _ => []
  | fuel + 1, n => if n = 0 then [] else natHexAux fuel (n / 16) ++ [hexDigitChar (n % 16)]

/-- Python format code 0 8 x applied to n: lowercase hexadecimal digits of n,
left padded with zeros to a minimum width of 8 (wider if n needs more). -/
def natHex8 (n : Nat) : List Char :=
  let ds := if n = 0 then ['0'] else natHexAux n n
  List.replicate (8 - ds.length) '0' ++ ds

/-- Four-digit lowercase hexadecimal representation used in u escapes. -/
def hex4 (n : Nat) : List Char :=
  [hexDigitChar (n / 4096 % 16), hexDigitChar (n / 256 % 16),
   hexDigitChar (n / 16 % 16), hexDigitChar (n % 16)]

/-- json.dumps escaping of one character with the default ensure_ascii=True:
quote and backslash get short escapes, control characters get short escapes
or u escapes, every character above 0x7e becomes a u escape (a surrogate
pair for astral characters); printable ASCII passes through. -/
def escapeChar (c : Char) : List Char :=
  if c = '"' then ['\\', '"']
  else if c = '\\' then ['\\', '\\']
  else if c.toNat = 8 then ['\\', 'b']
  else if c.toNat = 9 then ['\\', 't']
  else if c.toNat = 10 then ['\\', 'n']
  else if c.toNat = 12 then ['\\', 'f']
  else if c.toNat = 13 then ['\\', 'r']
  else if c.toNat < 32 ∨ 126 < c.toNat then
    if c.toNat < 65536 then '\\' :: 'u' :: hex4 c.toNat
    else
      '\\' :: 'u' :: hex4 (55296 + (c.toNat - 65536) / 1024) ++
      '\\' :: 'u' :: hex4 (56320 + (c.toNat - 65536) % 1024)
  else [c]

/-- json.dumps escaping of a whole string body. -/
def escapeStr : List Char → List Char
  | [] => []
  | c :: cs => escapeChar c ++ escapeStr cs

/-- json.dumps of a Python string: double quotes around the escaped body. -/
def dumpStr (s : List Char) : List Char := '"' :: escapeStr s ++ ['"']

mutual

/-- json.dumps with the module defaults (ensure_ascii=True, no indent, item
separator comma space, key separator colon space), restricted to the values
of our model. -/
def dumps : Json → List Char
  | .null => 'n' :: ['u', 'l', 'l']
  | .bool true => 't' :: ['r', 'u', 'e']
  | .bool false => 'f' :: ['a', 'l', 's', 'e']
  | .num i => intDump i
  | .str s => dumpStr s
  | .arr xs => '[' :: dumpsItems xs
  | .obj ms => '{' :: dumpsMembers ms

/-- Serialization of the items of a list, including the closing bracket. -/
def dumpsItems : JsonList → List Char
  | .nil => [']']
  | .cons x .nil => dumps x ++ [']']
  | .cons x (.cons y tl) => dumps x ++ ',' :: ' ' :: dumpsItems (.cons y tl)

/-- Serialization of the members of a dict, including the closing brace. -/
def dumpsMembers : JsonMembers → List Char
  | .nil => ['}']
  | .cons k v .nil => dumpStr k ++ ':' :: ' ' :: dumps v ++ ['}']
  | .cons k v (.cons k2 v2 tl) =>
    dumpStr k ++ ':' :: ' ' :: dumps v ++ ',' :: ' ' :: dumpsMembers (.cons k2 v2 tl)

end

/-- UTF-8 encoding of one unicode scalar value. -/
def utf8Bytes (c : Char) : List Nat :=
  let n := c.toNat
  if n < 128 then [n]
  else if n < 2048 then [192 + n / 64, 128 + n % 64]
  else if n < 65536 then [224 + n / 4096, 128 + n / 64 % 64, 128 + n % 64]
  else [240 + n / 262144, 128 + n / 4096 % 64, 128 + n / 64 % 64, 128 + n % 64]

/-- UTF-8 encoding of a string (Python str.encode with default codec). -/
def utf8Encode : List Char → List Nat
  | [] => []
  | c :: cs => utf8Bytes c ++ utf8Encode cs

/-- One scalar of strict UTF-8 decoding: given the lead byte and the bytes
after it, the decoded character and the bytes after the sequence.  Rejects
bad lead or continuation bytes, truncated sequences, overlong forms,
surrogates and values above 0x10ffff. -/
def utf8DecodeStep (b : Nat) (bs : List Nat) : Option (Char × List Nat) :=
  if b < 128 then some (Char.ofNat b, bs)
  else if b < 194 then none
  else if b < 224 then
    match bs with
    | b2 :: bs2 =>
      if 128 ≤ b2 ∧ b2 < 192 then some (Char.ofNat ((b - 192) * 64 + (b2 - 128)), bs2)
      else none
    | [] => none
  else if b < 240 then
    match bs with
    | b2 :: b3 :: bs3 =>
      if (128 ≤ b2 ∧ b2 < 192) ∧ (128 ≤ b3 ∧ b3 < 192) then
        let n := (b - 224) * 4096 + (b2 - 128) * 64 + (b3 - 128)
        if n < 2048 ∨ (55296 ≤ n ∧ n < 57344) then none
        else some (Char.ofNat n, bs3)
      else none
    | _ => none
  else if b < 245 then
    match bs with
    | b2 :: b3 :: b4 :: bs4 =>
      if (128 ≤ b2 ∧ b2 < 192) ∧ (128 ≤ b3 ∧ b3 < 192) ∧ (128 ≤ b4 ∧ b4 < 192) then
        let n := (b - 240) * 262144 + (b2 - 128) * 4096 + (b3 - 128) * 64 + (b4 - 128)
        if n < 65536 ∨ 1114111 < n then none
        else some (Char.ofNat n, bs4)
      else none
    | _ => none
  else none

/-- Strict UTF-8 decoding loop; the fuel only bounds recursion depth and any
fuel at or above the byte count is enough, since every step consumes at
least the lead byte. -/
def utf8DecodeAux : Nat → List Nat → Option (List Char)
  | _, [] => some []
  | 0, _ :: _ => none
  | fuel + 1, b :: bs =>
    match utf8DecodeStep b bs with
    | some (c, rest) => (utf8DecodeAux fuel rest).map (fun cs => c :: cs)
    | none => none

/-- Strict UTF-8 decoding (Python bytes.decode with default codec). -/
def utf8Decode (bs : List Nat) : Option (List Char) := utf8DecodeAux bs.length bs

/-- send_chunk as a Python string: the header 0x%08x of the character length
of the serialized payload, a newline, then the payload (source line 46). -/
def sendChunk (v : Json) : List Char :=
  '0' :: 'x' :: natHex8 (dumps v).length ++ '\n' :: dumps v

/-- The bytes send_chunk writes to the stream: the UTF-8 encoding of the
header line and payload. -/
def sendChunkBytes (v : Json) : List Nat := utf8Encode (sendChunk v)

/-- JSON whitespace as skipped by json.loads between tokens. -/
def isWsC (c : Char) : Bool := c = ' ' ∨ c = '\t' ∨ c = '\n' ∨ c = '\r'

/-- Skip JSON whitespace. -/
def skipWs : List Char → List Char
  | [] => []
  | c :: cs => if isWsC c then skipWs cs else c :: cs

/-- ASCII decimal digit test. -/
def isDigitC (c : Char) : Bool := 48 ≤ c.toNat ∧ c.toNat ≤ 57

/-- Value of a hexadecimal digit character (either case), as accepted by the
json module's u escapes and by int(s, 16). -/
def hv (c : Char) : Option Nat :=
  if 48 ≤ c.toNat ∧ c.toNat ≤ 57 then some (c.toNat - 48)
  else if 97 ≤ c.toNat ∧ c.toNat ≤ 102 then some (c.toNat - 87)
  else if 65 ≤ c.toNat ∧ c.toNat ≤ 70 then some (c.toNat - 55)
  else none

/-- One escape sequence after the backslash inside a JSON string: the
escape character and the input after it give the decoded character and the
rest.  Surrogate pairs in u escapes are combined as json.loads does; a lone
surrogate would produce a Python string our model cannot represent, so it
is rejected. -/
def strEscStep (e : Char) (r2 : List Char) : Option (Char × List Char) :=
  if e = '"' then some ('"', r2)
  else if e = '\\' then some ('\\', r2)
  else if e = '/' then some ('/', r2)
  else if e = 'b' then some (Char.ofNat 8, r2)
  else if e = 'f' then some (Char.ofNat 12, r2)
  else if e = 'n' then some ('\n', r2)
  else if e = 'r' then some (Char.ofNat 13, r2)
  else if e = 't' then some ('\t', r2)
  else if e = 'u' then
    match r2 with
    | h1 :: h2 :: h3 :: h4 :: r3 =>
      match hv h1, hv h2, hv h3, hv h4 with
      | some d1, some d2, some d3, some d4 =>
        let n := ((d1 * 16 + d2) * 16 + d3) * 16 + d4
        if n < 55296 ∨ 57344 ≤ n then some (Char.ofNat n, r3)
        else if n < 56320 then
          match r3 with
          | '\\' :: 'u' :: g1 :: g2 :: g3 :: g4 :: r4 =>
            match hv g1, hv g2, hv g3, hv g4 with
            | some e1, some e2, some e3, some e4 =>
              let m := ((e1 * 16 + e2) * 16 + e3) * 16 + e4
              if 56320 ≤ m ∧ m < 57344 then
                some (Char.ofNat (65536 + (n - 55296) * 1024 + (m - 56320)), r4)
              else none
            | _, _, _, _ => none
          | _ => none
        else none
      | _, _, _, _ => none
    | _ => none
  else none

/-- Body of a JSON string after the opening quote: plain characters and
escapes up to the closing quote.  Returns the decoded body and the input
after the closing quote.  Control characters are rejected (json.loads
default strict=True).  The fuel only bounds iteration count; any fuel above
the input length is enough since every step consumes at least one
character. -/
def parseStrAux : Nat → List Char → Option (List Char × List Char)
  | _, [] => none
  | 0, _ :: _ => none
  | fuel + 1, c :: r =>
    if c = '"' then some ([], r)
    else if c = '\\' then
      match r with
      | [] => none
      | e :: r2 =>
        match strEscStep e r2 with
        | some (d, r3) => (parseStrAux fuel r3).map (fun p => (d :: p.1, p.2))
        | none => none
    else if c.toNat < 32 then none
    else (parseStrAux fuel r).map (fun p => (c :: p.1, p.2))

/-- Body of a JSON string after the opening quote, as json.loads scans it. -/
def parseStringBody (s : List Char) : Option (List Char × List Char) :=
  parseStrAux s.length s

/-- Greedy run of decimal digits with an accumulator. -/
def parseDigits : List Char → Nat → Nat × List Char
  | [], acc => (acc, [])
  | c :: cs, acc =>
    if isDigitC c then parseDigits cs (acc * 10 + (c.toNat - 48)) else (acc, c :: cs)

/-- True when the input starts with a decimal digit. -/
def headIsDigit : List Char → Bool
  | [] => false
  | c :: _ => isDigitC c

/-- True when the input starts with a fraction or exponent marker, i.e. the
number continues as a float (floats are outside this model, see Json). -/
def headIsNumCont : List Char → Bool
  | [] => false
  | c :: _ => c = '.' ∨ c = 'e' ∨ c = 'E'

/-- Nonnegative JSON integer literal: digits without a leading zero, not
followed by a fraction or exponent. -/
def parseNumber : List Char → Option (Nat × List Char)
  | [] => none
  | c :: r =>
    if isDigitC c then
      if c = '0' then
        if headIsDigit r ∨ headIsNumCont r then none else some (0, r)
      else
        match parseDigits r (c.toNat - 48) with
        | (n, rest) => if headIsNumCont rest then none else some (n, rest)
    else none

/-- Replace the value under k, or append the pair: Python dict item
assignment for a dict represented as insertion-ordered pairs. -/
def dictSetM : JsonMembers → List Char → Json → JsonMembers
  | .nil, k, v => .cons k v .nil
  | .cons k2 v2 tl, k, v =>
    if k2 = k then .cons k v tl else .cons k2 v2 (dictSetM tl k v)

/-- Fold parsed object members into a dict, later duplicates replacing
earlier ones, as building a Python dict does. -/
def dedupeAux : JsonMembers → JsonMembers → JsonMembers
  | acc, .nil => acc
  | acc, .cons k v tl => dedupeAux (dictSetM acc k v) tl

/-- Dict built from parsed members in order. -/
def dedupeMembers (ms : JsonMembers) : JsonMembers := dedupeAux .nil ms

/-- Concatenation of member lists (specification device for dedupeAux). -/
def mAppend : JsonMembers → JsonMembers → JsonMembers
  | .nil, ys => ys
  | .cons k v tl, ys => .cons k v (mAppend tl ys)

mutual

/-- Recursive-descent JSON value parser mirroring json.loads on the model's
value space (integers only among numbers: a fraction or exponent makes the
parse fail rather than produce a float).  Fuel bounds the recursion depth;
any fuel above the input length is enough. -/
def parseValue : Nat → List Char → Option (Json × List Char)
  | 0, _ => none
  | _ + 1, [] => none
  | fuel + 1, c :: cs =>
    if c = 'n' then
      match cs with
      | 'u' :: 'l' :: 'l' :: r => some (.null, r)
      | _ => none
    else if c = 't' then
      match cs with
      | 'r' :: 'u' :: 'e' :: r => some (.bool true, r)
      | _ => none
    else if c = 'f' then
      match cs with
      | 'a' :: 'l' :: 's' :: 'e' :: r => some (.bool false, r)
      | _ => none
    else if c = '"' then
      match parseStringBody cs with
      | some (s, r) => some (.str s, r)
      | none => none
    else if c = '-' then
      match parseNumber cs with
      | some (n, r) => some (.num (-(n : Int)), r)
      | none => none
    else if isDigitC c then
      match parseNumber (c :: cs) with
      | some (n, r) => some (.num (n : Int), r)
      | none => none
    else if c = '[' then
      match skipWs cs with
      | [] => none
      | c2 :: cs2 =>
        if c2 = ']' then some (.arr .nil, cs2)
        else
          match parseItems fuel (c2 :: cs2) with
          | some (xs, r) => some (.arr xs, r)
          | none => none
    else if c = '{' then
      match skipWs cs with
      | [] => none
      | c2 :: cs2 =>
        if c2 = '}' then some (.obj .nil, cs2)
        else
          match parseMembers fuel (c2 :: cs2) with
          | some (ms, r) => some (.obj (dedupeMembers ms), r)
          | none => none
    else none

/-- One or more comma-separated array items followed by the closing bracket. -/
def parseItems : Nat → List Char → Option (JsonList × List Char)
  | 0, _ => none
  | fuel + 1, s =>
    match parseValue fuel s with
    | none => none
    | some (v, r) =>
      match skipWs r with
      | ',' :: r2 =>
        match parseItems fuel (skipWs r2) with
        | some (xs, r3) => some (.cons v xs, r3)
        | none => none
      | ']' :: r2 => some (.cons v .nil, r2)
      | _ => none

/-- One or more comma-separated object members followed by the closing brace. -/
def parseMembers : Nat → List Char → Option (JsonMembers × List Char)
  | 0, _ => none
  | fuel + 1, s =>
    match s with
    | '"' :: cs =>
      match parseStringBody cs with
      | some (k, r) =>
        match skipWs r with
        | ':' :: r2 =>
          match parseValue fuel (skipWs r2) with
          | some (v, r3) =>
            match skipWs r3 with
            | ',' :: r4 =>
              match parseMembers fuel (skipWs r4) with
              | some (ms, r5) => some (.cons k v ms, r5)
              | none => none
            | '}' :: r4 => some (.cons k v .nil, r4)
            | _ => none
          | none => none
        | _ => none
      | none => none
    | _ => none

end

/-- json.loads on a string: optional surrounding whitespace around exactly
one value, nothing after it. -/
def jsonLoads (s : List Char) : Option Json :=
  match parseValue (s.length + 1) (skipWs s) with
  | some (v, r) => if skipWs r = [] then some v else none
  | none => none

/-- Python whitespace bytes stripped by int(s, 16). -/
def isPyWsB (b : Nat) : Bool := b = 32 ∨ b = 9 ∨ b = 10 ∨ b = 13 ∨ b = 11 ∨ b = 12

/-- Value of an ASCII hexadecimal digit byte. -/
def hexValB (b : Nat) : Option Nat :=
  if 48 ≤ b ∧ b ≤ 57 then some (b - 48)
  else if 97 ≤ b ∧ b ≤ 102 then some (b - 87)
  else if 65 ≤ b ∧ b ≤ 70 then some (b - 55)
  else none

/-- Hexadecimal digit run with single underscores allowed between digits, as
int(s, 16) accepts: afterUnd records that the previous byte was an
underscore (which must be followed by a digit and cannot end the run). -/
def hexGroups : List Nat → Bool → Nat → Option Nat
  | [], afterUnd, acc => if afterUnd then none else some acc
  | b :: bs, afterUnd, acc =>
    if b = 95 then
      if afterUnd then none else hexGroups bs true acc
    else if (hexValB b).isSome then hexGroups bs false (acc * 16 + (hexValB b).getD 0)
    else none

/-- Digit part of int(s, 16): at least one digit, then hexGroups. -/
def hexStart : List Nat → Option Nat
  | [] => none
  | b :: bs =>
    if (hexValB b).isSome then hexGroups bs false ((hexValB b).getD 0)
    else none

/-- Digit part with the optional 0x / 0X prefix int(s, 16) accepts, possibly
followed by one underscore before the first digit. -/
def hexBody : List Nat → Option Nat
  | [] => hexStart []
  | [b] => hexStart [b]
  | b :: x :: rest =>
    if b = 48 ∧ (x = 120 ∨ x = 88) then
      match rest with
      | 95 :: rest2 => hexStart rest2
      | _ => hexStart rest
    else hexStart (b :: x :: rest)

/-- Python int(s, 16) on a byte string: surrounding whitespace stripped,
optional sign, optional 0x prefix, hexadecimal digits with underscores. -/
def pyIntHex (s : List Nat) : Option Int :=
  let t := (((s.dropWhile isPyWsB).reverse.dropWhile isPyWsB).reverse)
  match t with
  | [] => none
  | b :: rest =>
    if b = 43 then (hexBody rest).map (fun n => (n : Int))
    else if b = 45 then (hexBody rest).map (fun n => -(n : Int))
    else (hexBody (b :: rest)).map (fun n => (n : Int))

/-- readline on a byte stream: everything up to and including the first
newline byte, or the whole stream if it has none; also returns the rest. -/
def readLine : List Nat → List Nat × List Nat
  | [] => ([], [])
  | b :: bs =>
    if b = 10 then ([10], bs)
    else
      match readLine bs with
      | (l, r) => (b :: l, r)

/-- Python exceptions this client can raise or catch, as far as the claims
need them.  str-conversion (exnStr) follows Python: for KeyError the repr of
the key, for Exception with one argument the str of that argument. -/
inductive PyExn where
  | assertionError (info : Option Json)
  | keyError (key : Json)
  | indexError
  | typeError (msg : List Char)
  | valueError
  | unicodeDecodeError
  | jsonDecodeError
  | exception (arg : Json)

/-- get_chunk (source lines 32-41): read the header line, assert the 0x
prefix and trailing newline, parse the hexadecimal length, read that many
bytes (all remaining bytes on a negative length, as file.read does), decode
UTF-8 and parse JSON.  Returns the value and the unread rest of the stream. -/
def getChunk (input : List Nat) : Except PyExn (Json × List Nat) :=
  match readLine input with
  | (lenLine, rest) =>
    if lenLine.take 2 = [48, 120] then
      if lenLine.getLast? = some 10 then
        match pyIntHex (lenLine.drop 2).dropLast with
        | some n =>
          let body := if n < 0 then rest else rest.take n.toNat
          let rest2 := if n < 0 then [] else rest.drop n.toNat
          match utf8Decode body with
          | some chars =>
            match jsonLoads chars with
            | some v => .ok (v, rest2)
            | none => .error .jsonDecodeError
          | none => .error .unicodeDecodeError
        | none => .error .valueError
      else .error (.assertionError none)
    else .error (.assertionError none)

/-- The tag of invocation frames. -/
def strInvoke : List Char := ['i', 'n', 'v', 'o', 'k', 'e']

/-- The tag of reply frames. -/
def strReturn : List Char := ['r', 'e', 't', 'u', 'r', 'n']

/-- The success outcome tag. -/
def strOk : List Char := ['o', 'k']

/-- The failure outcome tag. -/
def strFail : List Char := ['f', 'a', 'i', 'l']

/-- Python repr escaping of one character inside quote q: backslash, the
quote and common controls get short escapes, other ASCII controls and
delete get x escapes; characters above delete are kept raw.  Python also
x/u/U-escapes characters above delete that its Unicode tables class as
non-printable (repr of the C1 control U+0085 is a backslash escape), which
this model omits: it is exact precisely on ASCII characters, so every
theorem about a repr payload restricts the string to ASCII. -/
def reprEscapeChar (q : Char) (c : Char) : List Char :=
  if c = '\\' then ['\\', '\\']
  else if c = q then ['\\', q]
  else if c.toNat = 10 then ['\\', 'n']
  else if c.toNat = 13 then ['\\', 'r']
  else if c.toNat = 9 then ['\\', 't']
  else if c.toNat < 32 ∨ c.toNat = 127 then
    ['\\', 'x', hexDigitChar (c.toNat / 16), hexDigitChar (c.toNat % 16)]
  else [c]

/-- Python repr escaping of a string body. -/
def reprEscapeStr (q : Char) : List Char → List Char
  | [] => []
  | c :: cs => reprEscapeChar q c ++ reprEscapeStr q cs

/-- Python repr of a string: single quotes, switching to double quotes when
the string contains a single quote but no double quote.  Exact for ASCII
strings only, since reprEscapeChar keeps non-ASCII characters raw. -/
def strRepr (s : List Char) : List Char :=
  let q := if s.contains '\'' ∧ ¬ s.contains '"' then '"' else '\''
  q :: reprEscapeStr q s ++ [q]

mutual

/-- Python repr of a decoded JSON value (None / True / False / ints /
quoted strings / lists / dicts). -/
def pyRepr : Json → List Char
  | .null => ['N', 'o', 'n', 'e']
  | .bool true => ['T', 'r', 'u', 'e']
  | .bool false => ['F', 'a', 'l', 's', 'e']
  | .num i => intDump i
  | .str s => strRepr s
  | .arr xs => '[' :: pyReprItems xs
  | .obj ms => '{' :: pyReprMembers ms

/-- repr of list items with the comma-space separator and closing bracket. -/
def pyReprItems : JsonList → List Char
  | .nil => [']']
  | .cons x .nil => pyRepr x ++ [']']
  | .cons x (.cons y tl) => pyRepr x ++ ',' :: ' ' :: pyReprItems (.cons y tl)

/-- repr of dict members with the comma-space separator and closing brace. -/
def pyReprMembers : JsonMembers → List Char
  | .nil => ['}']
  | .cons k v .nil => strRepr k ++ ':' :: ' ' :: pyRepr v ++ ['}']
  | .cons k v (.cons k2 v2 tl) =>
    strRepr k ++ ':' :: ' ' :: pyRepr v ++ ',' :: ' ' :: pyReprMembers (.cons k2 v2 tl)

end

/-- Python str of a decoded JSON value: the string itself for strings, repr
for everything else. -/
def pyStr : Json → List Char
  | .str s => s
  | j => pyRepr j

/-- Python str of an exception as used by reply_fail (source line 96): for
KeyError the repr of the missing key, for Exception(x) the str of x; the
remaining messages are fixed model text (never inspected by the client). -/
def exnStr : PyExn → List Char
  | .keyError k => pyRepr k
  | .typeError m => m
  | .exception j => pyStr j
  | _ => []

/-- Message of the TypeError raised by the comma join in the logging call of
the except block (source line 95) when an argument is not a string. -/
def msgJoin : List Char := ['j', 'o', 'i', 'n']

/-- Message of the TypeError raised by unpacking a non-iterable argument
object with the star operator. -/
def msgSplat : List Char := ['n', 'o', 't', ' ', 'i', 't', 'e', 'r', 'a', 'b', 'l', 'e']

/-- Message of the TypeError raised by using an unhashable value as a dict
key. -/
def msgUnhashable : List Char := ['u', 'n', 'h', 'a', 's', 'h', 'a', 'b', 'l', 'e']

/-- Message of the TypeError raised by subscripting a non-subscriptable
value. -/
def msgSubscript : List Char := ['s', 'u', 'b', 's', 'c', 'r', 'i', 'p', 't']

/-- Element lookup in a JsonList. -/
def jlGet : JsonList → Nat → Option Json
  | .nil, _ => none
  | .cons x _, 0 => some x
  | .cons _ tl, i + 1 => jlGet tl i

/-- Python subscript j[i] with a nonnegative int index: list item or
IndexError; one-character string for strings; KeyError for dicts (whose
keys here are strings, never ints); TypeError otherwise. -/
def pyIndex (j : Json) (i : Nat) : Except PyExn Json :=
  match j with
  | .arr xs =>
    match jlGet xs i with
    | some x => .ok x
    | none => .error .indexError
  | .str s =>
    match s.get? i with
    | some c => .ok (.str [c])
    | none => .error .indexError
  | .obj _ => .error (.keyError (.num i))
  | _ => .error (.typeError msgSubscript)

/-- Python equality of a decoded JSON value against a string literal: only a
string with the same characters compares equal. -/
def jsonEqStr (j : Json) (s : List Char) : Bool :=
  match j with
  | .str t => t = s
  | _ => false

/-- The chars of a string as one-character strings: iterating a Python str. -/
def strChars : List Char → JsonList
  | [] => .nil
  | c :: cs => .cons (.str [c]) (strChars cs)

/-- The keys of a dict as strings: iterating a Python dict. -/
def memberKeys : JsonMembers → JsonList
  | .nil => .nil
  | .cons k _ tl => .cons (.str k) (memberKeys tl)

/-- Star-unpacking f(*args): the elements for a list, the one-character
strings for a str, the keys for a dict; none (TypeError) otherwise. -/
def splat : Json → Option JsonList
  | .arr xs => some xs
  | .str s => some (strChars s)
  | .obj ms => some (memberKeys ms)
  | _ => none

/-- All elements are strings. -/
def jlAllStr : JsonList → Bool
  | .nil => true
  | .cons (.str _) tl => jlAllStr tl
  | .cons _ _ => false

/-- Whether the eager comma join over args in the logging call of the except
block (source line 95) succeeds: args must be iterable with string elements
(dict keys are strings by construction). -/
def joinOk : Json → Bool
  | .arr xs => jlAllStr xs
  | .str _ => true
  | .obj _ => true
  | _ => false

/-- Result of running a local operation handler: a return value or a raised
exception. -/
inductive HResult where
  | ok (v : Json)
  | raise (e : PyExn)

/-- A local operation handler receives the star-unpacked argument list. -/
def Handler : Type := JsonList → HResult

/-- An operation table: name to handler, none when the name is absent. -/
def Handlers : Type := List Char → Option Handler

/-- handlers[op](*args) inside the try block (source line 92): dict lookup
(TypeError for unhashable op, KeyError when absent), star-unpacking of args,
then the handler call. -/
def tryInvoke (H : Handlers) (op args : Json) : Except PyExn Json :=
  match op with
  | .str s =>
    match H s with
    | some h =>
      match splat args with
      | some argl =>
        match h argl with
        | .ok v => .ok v
        | .raise e => .error e
      | none => .error (.typeError msgSplat)
    | none => .error (.keyError (.str s))
  | .arr _ => .error (.typeError msgUnhashable)
  | .obj _ => .error (.typeError msgUnhashable)
  | _ => .error (.keyError op)

/-- callbacks.pop over the association list, for a string ticket. -/
def popStr {κ : Type} : List (List Char × κ) → List Char → Except PyExn (κ × List (List Char × κ))
  | [], s => .error (.keyError (.str s))
  | (k, v) :: tl, s =>
    if k = s then .ok (v, tl)
    else
      match popStr tl s with
      | .ok (cb, tl2) => .ok (cb, (k, v) :: tl2)
      | .error e => .error e

/-- callbacks.pop(ticket) (source line 99): TypeError for an unhashable
ticket, KeyError when the ticket is not pending (all stored keys are
strings, so any non-string hashable ticket is simply absent). -/
def popCallback {κ : Type} (cbs : List (List Char × κ)) (t : Json) :
    Except PyExn (κ × List (List Char × κ)) :=
  match t with
  | .str s => popStr cbs s
  | .arr _ => .error (.typeError msgUnhashable)
  | .obj _ => .error (.typeError msgUnhashable)
  | _ => .error (.keyError t)

/-- The reply frame written by reply_ok (source lines 57-58). -/
def reply_ok (t : Json) (resp : Json) : List Nat :=
  sendChunkBytes (.arr (jlist [.str strReturn, t, .str strOk, resp]))

/-- The reply frame written by reply_fail (source lines 60-61). -/
def reply_fail (t : Json) (resp : Json) : List Nat :=
  sendChunkBytes (.arr (jlist [.str strReturn, t, .str strFail, resp]))

/-- Everything one call of handle_next_chunk does.  κ is the type of the
stored continuations; the client never inspects them, it only stores and
finally calls one, so the call is reported in contCall (the continuation to
invoke and its star-unpacked payload) rather than executed.  err holds the
exception, if any, that propagates out of handle_next_chunk and kills the
session; sent lists the frames written, in order. -/
structure StepOut (κ : Type) where
  sent : List (List Nat)
  cbs : List (List Char × κ)
  contCall : Option (κ × JsonList)
  rest : List Nat
  err : Option PyExn

/-- handle_next_chunk (source lines 85-105) over an inbound byte stream:
read one frame, then route it.  An invoke frame runs the handler inside
try/except: on success reply_ok is written; on any caught exception the
logging call evaluates a comma join of the raw argument object (which itself
raises TypeError for non-string arguments, killing the session) and then
reply_fail is written with the str of the exception.  A return frame pops
the callback (KeyError is fatal), then either reports the continuation call
(ok) or raises Exception(payload) (fail).  Any other frame hits assert 0. -/
def handleNextChunk {κ : Type} (H : Handlers) (cbs : List (List Char × κ))
    (input : List Nat) : StepOut κ :=
  match getChunk input with
  | .error e => ⟨[], cbs, none, input, some e⟩
  | .ok (req, rest) =>
    match pyIndex req 0 with
    | .error e => ⟨[], cbs, none, rest, some e⟩
    | .ok first =>
      if jsonEqStr first strInvoke then
        match pyIndex req 1 with
        | .error e => ⟨[], cbs, none, rest, some e⟩
        | .ok ticket =>
          match pyIndex req 2 with
          | .error e => ⟨[], cbs, none, rest, some e⟩
          | .ok op =>
            match pyIndex req 3 with
            | .error e => ⟨[], cbs, none, rest, some e⟩
            | .ok args =>
              match tryInvoke H op args with
              | .ok resp => ⟨[reply_ok ticket resp], cbs, none, rest, none⟩
              | .error e =>
                if joinOk args then
                  ⟨[reply_fail ticket (.str (exnStr e))], cbs, none, rest, none⟩
                else ⟨[], cbs, none, rest, some (.typeError msgJoin)⟩
      else if jsonEqStr first strReturn then
        match pyIndex req 1 with
        | .error e => ⟨[], cbs, none, rest, some e⟩
        | .ok ticket =>
          match popCallback cbs ticket with
          | .error e => ⟨[], cbs, none, rest, some e⟩
          | .ok (cb, cbs2) =>
            match pyIndex req 2 with
            | .error e => ⟨[], cbs2, none, rest, some e⟩
            | .ok outcome =>
              if jsonEqStr outcome strOk then
                match pyIndex req 3 with
                | .error e => ⟨[], cbs2, none, rest, some e⟩
                | .ok payload =>
                  match splat payload with
                  | some argl => ⟨[], cbs2, some (cb, argl), rest, none⟩
                  | none => ⟨[], cbs2, none, rest, some (.typeError msgSplat)⟩
              else
                if jsonEqStr outcome strFail then
                  match pyIndex req 3 with
                  | .error e => ⟨[], cbs2, none, rest, some e⟩
                  | .ok payload => ⟨[], cbs2, none, rest, some (.exception payload)⟩
                else ⟨[], cbs2, none, rest, some (.assertionError (some req))⟩
      else ⟨[], cbs, none, rest, some (.assertionError (some req))⟩

/-- Dict item assignment for the callbacks table (replace or append). -/
def dictSet {κ : Type} : List (List Char × κ) → List Char → κ → List (List Char × κ)
  | [], k, v => [(k, v)]
  | (k2, v2) :: tl, k, v =>
    if k2 = k then (k, v) :: tl else (k2, v2) :: dictSet tl k v

/-- Membership of a key in the callbacks table. -/
def keyMem {κ : Type} (k : List Char) : List (List Char × κ) → Bool
  | [] => false
  | (k2, _) :: tl => k2 = k ∨ keyMem k tl

/-- The mutable session state of one side: the ticket counter (next_ticket,
source line 28, starting at 1) and the pending-callback table (callbacks,
source line 30). -/
structure ClientState (κ : Type) where
  nextTicket : Nat
  callbacks : List (List Char × κ)

/-- invoke (source lines 49-55): allocate the ticket str(next_ticket),
increment the counter, store the continuation under the ticket, and send the
invocation frame.  Returns the ticket, the new state and the frame bytes. -/
def invoke {κ : Type} (s : ClientState κ) (on_success : κ) (op : List Char)
    (args : JsonList) : List Char × ClientState κ × List Nat :=
  let ticket := natDec s.nextTicket
  (ticket, ⟨s.nextTicket + 1, dictSet s.callbacks ticket on_success⟩,
   sendChunkBytes (.arr (jlist [.str strInvoke, .str ticket, .str op, .arr args])))

/-- N sequential invoke calls with no intervening resolution: the list of
allocated tickets and the final state. -/
def invokeSeq {κ : Type} (on_success : κ) (op : List Char) (args : JsonList) :
    ClientState κ → Nat → List (List Char) × ClientState κ
  | s, 0 => ([], s)
  | s, n + 1 =>
    match invoke s on_success op args with
    | (t, s2, _) =>
      match invokeSeq on_success op args s2 n with
      | (ts, s3) => (t :: ts, s3)

/-- do_select_api_version (source lines 63-65): logs the proposal and
returns the constant string 2.5. -/
def do_select_api_version (proposed_by_server : Json) : Json :=
  .str ['2', '.', '5']

/-- Key is among the members. -/
def keyMemM (k : List Char) : JsonMembers → Bool
  | .nil => false
  | .cons k2 _ tl => k2 = k ∨ keyMemM k tl

mutual

/-- A value is representable as a Python object crossing the wire: every
dict level has pairwise-distinct keys (a Python dict cannot hold duplicate
keys). -/
def wellFormed : Json → Bool
  | .null => true
  | .bool _ => true
  | .num _ => true
  | .str _ => true
  | .arr xs => wfList xs
  | .obj ms => wfMembers ms

/-- wellFormed at every element. -/
def wfList : JsonList → Bool
  | .nil => true
  | .cons x tl => wellFormed x ∧ wfList tl

/-- Distinct keys at this level and wellFormed values. -/
def wfMembers : JsonMembers → Bool
  | .nil => true
  | .cons k v tl => ¬ keyMemM k tl ∧ wellFormed v ∧ wfMembers tl

end

/-- Value of a decimal digit string under an accumulator (specification
device for parseDigits and natDecAux). -/
def decAccVal (acc : Nat) (ds : List Char) : Nat :=
  ds.foldl (fun a c => a * 10 + (c.toNat - 48)) acc

/-- Value of a hexadecimal digit string under an accumulator. -/
def hexAccVal (acc : Nat) (ds : List Char) : Nat :=
  ds.foldl (fun a c => a * 16 + (hv c).getD 0) acc

/-- Lowercase hexadecimal digit character test. -/
def isLowerHexC (c : Char) : Bool :=
  (48 ≤ c.toNat ∧ c.toNat ≤ 57) ∨ (97 ≤ c.toNat ∧ c.toNat ≤ 102)

/-- Hexadecimal digit character test, either case. -/
def isHexC (c : Char) : Bool := (hv c).isSome

/-- A continuation of the input that cannot extend a just-parsed integer
literal: it starts with neither a digit nor a fraction or exponent marker. -/
def numSafe (rest : List Char) : Prop :=
  headIsDigit rest = false ∧ headIsNumCont rest = false

/-- The shape claim C1 asserts of every emitted frame: the ASCII literal 0x,
exactly 8 lowercase hexadecimal digits whose value is the byte length of the
UTF-8 payload, a newline, then the payload bytes. -/
def claimC1Shape (v : Json) : Prop :=
  ∃ ds : List Char, ds.length = 8 ∧ (∀ c ∈ ds, isLowerHexC c = true) ∧
    hexAccVal 0 ds = (utf8Encode (dumps v)).length ∧
    sendChunkBytes v = 48 :: 120 :: ds.map Char.toNat ++ 10 :: utf8Encode (dumps v)

/-- A message whose serialized payload reaches 2^32 characters: a string of
2^32 repetitions of the letter a (the two quotes push the payload past the
8-digit header capacity). -/
def bigPayload : Json := .str (List.replicate 4294967296 'a')

/-- An echo handler returning its first positional argument (the handler
claim C4 supposes registered). -/
def echoHandler : Handler := fun args =>
  match args with
  | .cons a _ => .ok a
  | .nil => .raise (.typeError msgSplat)

/-- A table with only the echo operation. -/
def echoTable : Handlers := fun s =>
  if s = ['e', 'c', 'h', 'o'] then some echoHandler else none

/-- A handler raising Exception with message x (the handler claim C3
supposes registered under the operation name boom). -/
def boomHandler : Handler := fun _ => .raise (.exception (.str ['x']))

/-- A table with only the boom operation. -/
def boomTable : Handlers := fun s =>
  if s = ['b', 'o', 'o', 'm'] then some boomHandler else none

/-- An empty operation table. -/
def hEmpty : Handlers := fun _ => none

/-- A well-formed sample message exercising every constructor of the
interchange format. -/
def sampleMsg : Json :=
  .obj (.cons ['a'] (.num 5)
    (.cons ['b'] (.arr (jlist [.null, .bool true, .str ['h', 'i'], .num (-3)]))
      (.cons ['c'] (.obj (.cons ['k'] (.bool false) .nil)) .nil)))

/-- The invoke frame of claim C4: ticket 5, operation echo, arguments
[. hi]. -/
def echoFrame : List Nat :=
  sendChunkBytes (.arr (jlist [.str strInvoke, .str ['5'], .str ['e', 'c', 'h', 'o'],
    .arr (jlist [.str ['h', 'i']])]))

/-- An invoke frame for boom carrying a non-string argument. -/
def boomFrame7 : List Nat :=
  sendChunkBytes (.arr (jlist [.str strInvoke, .str ['9'], .str ['b', 'o', 'o', 'm'],
    .arr (jlist [.num 7])]))

/-- An invoke frame for boom with a string argument. -/
def boomFrameS : List Nat :=
  sendChunkBytes (.arr (jlist [.str strInvoke, .str ['9'], .str ['b', 'o', 'o', 'm'],
    .arr (jlist [.str ['h', 'i']])]))

/-- A fail reply frame for ticket 9 with payload x. -/
def failFrame9 : List Nat :=
  sendChunkBytes (.arr (jlist [.str strReturn, .str ['9'], .str strFail, .str ['x']]))

/-- An ok reply frame for ticket 7 with a singleton payload list. -/
def retFrame7 : List Nat :=
  sendChunkBytes (.arr (jlist [.str strReturn, .str ['7'], .str strOk,
    .arr (jlist [.null])]))

/-- An ok reply frame for ticket 7 with a two-element payload list. -/
def retFrame7ab : List Nat :=
  sendChunkBytes (.arr (jlist [.str strReturn, .str ['7'], .str strOk,
    .arr (jlist [.str ['a'], .str ['b']])]))

/-- An invoke frame for the unregistered operation nosuch with no
arguments. -/
def nosuchFrame : List Nat :=
  sendChunkBytes (.arr (jlist [.str strInvoke, .str ['9'],
    .str ['n', 'o', 's', 'u', 'c', 'h'], .arr (jlist [])]))

/-- The reply payload claim C6 predicts for an unknown operation. -/
def strUnknownOp : List Char :=
  ['u', 'n', 'k', 'n', 'o', 'w', 'n', ' ', 'o', 'p', 'e', 'r', 'a', 't', 'i', 'o', 'n']

/-- Characters below the surrogate range decode back from their code. -/
theorem char_toNat_ofNat_low {n : Nat} (h : n < 55296) : (Char.ofNat n).toNat = n := by
  unfold Char.ofNat Char.ofNatAux
  rw [dif_pos (Or.inl h)]
  simp [Char.toNat, UInt32.toNat, UInt32.ofNatCore, BitVec.toNat_ofNatLt]

/-- Characters above the surrogate range decode back from their code. -/
theorem char_toNat_ofNat_high {n : Nat} (h1 : 57344 ≤ n) (h2 : n < 1114112) :
    (Char.ofNat n).toNat = n := by
  unfold Char.ofNat Char.ofNatAux
  rw [dif_pos (Or.inr ⟨h1, h2⟩)]
  simp [Char.toNat, UInt32.toNat, UInt32.ofNatCore, BitVec.toNat_ofNatLt]

/-- Characters are determined by their code. -/
theorem char_eq_of_toNat {c d : Char} (h : c.toNat = d.toNat) : c = d := by
  have h1 := Char.ofNat_toNat c
  have h2 := Char.ofNat_toNat d
  rw [← h1, ← h2, h]

/-- Every character code is a unicode scalar value. -/
theorem char_valid (c : Char) : c.toNat < 55296 ∨ (57344 ≤ c.toNat ∧ c.toNat < 1114112) := by
  have h := c.valid
  rcases h with h | h
  · exact Or.inl h
  · exact Or.inr h

/-- Code of a decimal digit character. -/
theorem digitChar_toNat {d : Nat} (h : d < 10) : (digitChar d).toNat = 48 + d := by
  unfold digitChar
  exact char_toNat_ofNat_low (by omega)

/-- Code of a lowercase hexadecimal digit character. -/
theorem hexDigitChar_toNat {d : Nat} (h : d < 16) :
    (hexDigitChar d).toNat = if d < 10 then 48 + d else 87 + d := by
  unfold hexDigitChar
  by_cases h10 : d < 10
  · rw [if_pos h10, if_pos h10]
    exact char_toNat_ofNat_low (by omega)
  · rw [if_neg h10, if_neg h10]
    exact char_toNat_ofNat_low (by omega)

/-- Decimal digit characters pass the digit test. -/
theorem isDigitC_digitChar {d : Nat} (h : d < 10) : isDigitC (digitChar d) = true := by
  have := digitChar_toNat h
  simp [isDigitC, this]
  omega

/-- Lowercase hexadecimal digit characters pass the lowercase-hex test. -/
theorem isLowerHexC_hexDigitChar {d : Nat} (h : d < 16) :
    isLowerHexC (hexDigitChar d) = true := by
  have := hexDigitChar_toNat h
  by_cases h10 : d < 10 <;> simp [if_pos, if_neg, h10] at this <;>
    simp [isLowerHexC, this] <;> omega

/-- Hexadecimal digit characters evaluate to their digit value. -/
theorem hv_hexDigitChar {d : Nat} (h : d < 16) : hv (hexDigitChar d) = some d := by
  have := hexDigitChar_toNat h
  by_cases h10 : d < 10 <;> simp [if_pos, if_neg, h10] at this
  · rw [hv, this, if_pos (by omega)]
    congr 1
    omega
  · rw [hv, this, if_neg (by omega), if_pos (by omega)]
    congr 1
    omega

/-- hv on a character is hexValB on its code. -/
theorem hexValB_toNat (c : Char) : hexValB c.toNat = hv c := rfl

/-- ASCII characters encode to their single code byte. -/
theorem utf8Bytes_ascii {c : Char} (h : c.toNat < 128) : utf8Bytes c = [c.toNat] := by
  unfold utf8Bytes
  rw [if_pos h]

/-- UTF-8 encoding distributes over append. -/
theorem utf8Encode_append (s t : List Char) :
    utf8Encode (s ++ t) = utf8Encode s ++ utf8Encode t := by
  induction s with
  | nil => simp [utf8Encode]
  | cons c cs ih => simp [utf8Encode, ih]

/-- An ASCII string encodes to the list of its character codes. -/
theorem utf8Encode_ascii {s : List Char} (h : ∀ c ∈ s, c.toNat < 128) :
    utf8Encode s = s.map Char.toNat := by
  induction s with
  | nil => simp [utf8Encode]
  | cons c cs ih =>
    rw [utf8Encode, utf8Bytes_ascii (h c (by simp)), ih (fun d hd => h d (by simp [hd]))]
    simp

/-- An ASCII lead byte decodes to its character alone. -/
theorem utf8DecodeStep_ascii {b : Nat} (h : b < 128) (bs : List Nat) :
    utf8DecodeStep b bs = some (Char.ofNat b, bs) := by
  unfold utf8DecodeStep
  rw [if_pos h]

/-- The character codes of an ASCII string decode back to it, under any
sufficient fuel. -/
theorem utf8DecodeAux_ascii {s : List Char} (h : ∀ c ∈ s, c.toNat < 128) :
    ∀ fuel, s.length ≤ fuel → utf8DecodeAux fuel (s.map Char.toNat) = some s := by
  induction s with
  | nil =>
    intro fuel _
    cases fuel <;> rfl
  | cons c cs ih =>
    intro fuel hf
    cases fuel with
    | zero => simp at hf
    | succ f =>
      rw [List.map_cons, utf8DecodeAux, utf8DecodeStep_ascii (h c (by simp))]
      simp [ih (fun d hd => h d (by simp [hd])) f (by simp at hf; omega), Char.ofNat_toNat]

/-- The character codes of an ASCII string decode back to it. -/
theorem utf8Decode_ascii {s : List Char} (h : ∀ c ∈ s, c.toNat < 128) :
    utf8Decode (s.map Char.toNat) = some s := by
  unfold utf8Decode
  exact utf8DecodeAux_ascii h _ (by simp)

/-- decAccVal over a cons. -/
theorem decAccVal_cons (acc : Nat) (c : Char) (ds : List Char) :
    decAccVal acc (c :: ds) = decAccVal (acc * 10 + (c.toNat - 48)) ds := rfl

/-- decAccVal over an append. -/
theorem decAccVal_append (acc : Nat) (ds es : List Char) :
    decAccVal acc (ds ++ es) = decAccVal (decAccVal acc ds) es := by
  simp [decAccVal, List.foldl_append]

/-- hexAccVal over a cons. -/
theorem hexAccVal_cons (acc : Nat) (c : Char) (ds : List Char) :
    hexAccVal acc (c :: ds) = hexAccVal (acc * 16 + (hv c).getD 0) ds := rfl

/-- hexAccVal over an append. -/
theorem hexAccVal_append (acc : Nat) (ds es : List Char) :
    hexAccVal acc (ds ++ es) = hexAccVal (hexAccVal acc ds) es := by
  simp [hexAccVal, List.foldl_append]

/-- natDecAux of zero is empty. -/
theorem natDecAux_zero (fuel : Nat) : natDecAux fuel 0 = [] := by
  cases fuel <;> rfl

/-- natDecAux emits decimal digits. -/
theorem natDecAux_digits :
    ∀ fuel n, n ≤ fuel → ∀ c ∈ natDecAux fuel n, isDigitC c = true := by
  intro fuel
  induction fuel with
  | zero =>
    intro n hn c hc
    simp [natDecAux] at hc
  | succ f ih =>
    intro n hn c hc
    by_cases h0 : n = 0
    · simp [natDecAux, h0] at hc
    · rw [natDecAux, if_neg h0] at hc
      rcases List.mem_append.1 hc with h | h
      · exact ih (n / 10) (by omega) c h
      · simp at h
        rw [h]
        exact isDigitC_digitChar (by omega)

/-- Value of the digits natDecAux produces. -/
theorem natDecAux_val :
    ∀ fuel n acc, n ≤ fuel →
      decAccVal acc (natDecAux fuel n) = acc * 10 ^ (natDecAux fuel n).length + n := by
  intro fuel
  induction fuel with
  | zero =>
    intro n acc hn
    have h0 : n = 0 := by omega
    simp [natDecAux, h0, decAccVal]
  | succ f ih =>
    intro n acc hn
    by_cases h0 : n = 0
    · simp [natDecAux, h0, decAccVal]
    · rw [natDecAux, if_neg h0, decAccVal_append, ih (n / 10) acc (by omega),
        List.length_append]
      rw [decAccVal_cons]
      show decAccVal _ [] = _
      rw [decAccVal]
      simp only [List.foldl_nil, List.length_singleton]
      rw [digitChar_toNat (by omega)]
      have hmod : 48 + n % 10 - 48 = n % 10 := by omega
      rw [hmod]
      have hpow : 10 ^ ((natDecAux f (n / 10)).length + 1) =
          10 ^ (natDecAux f (n / 10)).length * 10 := by
        rw [pow_succ]
      rw [hpow]
      have hdm := Nat.div_add_mod n 10
      generalize (10 : Nat) ^ (natDecAux f (n / 10)).length = P
      ring_nf
      omega

/-- natDecAux of a positive number starts with a nonzero digit. -/
theorem natDecAux_head :
    ∀ fuel n, n ≠ 0 → n ≤ fuel →
      ∃ d ds, natDecAux fuel n = d :: ds ∧ isDigitC d = true ∧ d ≠ '0' := by
  intro fuel
  induction fuel with
  | zero =>
    intro n h0 hn
    omega
  | succ f ih =>
    intro n h0 hn
    rw [natDecAux, if_neg h0]
    by_cases hq : n / 10 = 0
    · rw [hq, natDecAux_zero, List.nil_append]
      refine ⟨digitChar (n % 10), [], rfl, isDigitC_digitChar (by omega), ?_⟩
      intro heq
      have := congrArg Char.toNat heq
      rw [digitChar_toNat (by omega)] at this
      have h48 : ('0' : Char).toNat = 48 := by decide
      rw [h48] at this
      omega
    · obtain ⟨d, ds, hds, hdig, hne⟩ := ih (n / 10) hq (by omega)
      exact ⟨d, ds ++ [digitChar (n % 10)], by rw [hds]; rfl, hdig, hne⟩

/-- natDec emits decimal digits. -/
theorem natDec_digits (n : Nat) : ∀ c ∈ natDec n, isDigitC c = true := by
  intro c hc
  unfold natDec at hc
  by_cases h0 : n = 0
  · simp [h0] at hc
    rw [hc]
    decide
  · rw [if_neg h0] at hc
    exact natDecAux_digits n n (le_refl n) c hc

/-- Value of natDec. -/
theorem natDec_val (n : Nat) : decAccVal 0 (natDec n) = n := by
  unfold natDec
  by_cases h0 : n = 0
  · rw [if_pos h0, h0]
    rfl
  · rw [if_neg h0, natDecAux_val n n 0 (le_refl n)]
    simp

/-- Decimal representation is injective: distinct counters give distinct
tickets. -/
theorem natDec_inj {n m : Nat} (h : natDec n = natDec m) : n = m := by
  have h1 := natDec_val n
  have h2 := natDec_val m
  rw [← h1, ← h2, h]

/-- parseDigits consumes exactly a digit run. -/
theorem parseDigits_append {ds rest : List Char} (hd : ∀ c ∈ ds, isDigitC c = true)
    (hr : headIsDigit rest = false) (acc : Nat) :
    parseDigits (ds ++ rest) acc = (decAccVal acc ds, rest) := by
  induction ds generalizing acc with
  | nil =>
    cases rest with
    | nil => rfl
    | cons r rs =>
      rw [List.nil_append, parseDigits]
      rw [headIsDigit] at hr
      rw [if_neg (by simp [hr])]
      rfl
  | cons c cs ih =>
    rw [List.cons_append, parseDigits, if_pos (by have := hd c (by simp); simp [this]),
      ih (fun d hdm => hd d (by simp [hdm]))]
    rfl

/-- parseNumber reads back natDec. -/
theorem parseNumber_natDec {n : Nat} {rest : List Char} (h1 : headIsDigit rest = false)
    (h2 : headIsNumCont rest = false) :
    parseNumber (natDec n ++ rest) = some (n, rest) := by
  by_cases h0 : n = 0
  · rw [h0]
    show parseNumber ('0' :: rest) = some (0, rest)
    rw [parseNumber, if_pos (by decide), if_pos (by decide), if_neg (by simp [h1, h2])]
  · have hshape : natDec n = natDecAux n n := by rw [natDec, if_neg h0]
    obtain ⟨d, ds, hds, hdig, hne⟩ := natDecAux_head n n h0 (le_refl n)
    rw [hshape, hds, List.cons_append, parseNumber, if_pos (by simp [hdig]), if_neg hne]
    have hall : ∀ c ∈ ds, isDigitC c = true := by
      intro c hc
      exact natDecAux_digits n n (le_refl n) c (by rw [hds]; simp [hc])
    rw [parseDigits_append hall h1]
    have hval : decAccVal (d.toNat - 48) ds = n := by
      have := natDec_val n
      rw [hshape, hds, decAccVal_cons] at this
      simpa using this
    rw [hval]
    show (if headIsNumCont rest = true then none else some (n, rest)) = some (n, rest)
    rw [if_neg (by simp [h2])]

/-- natHexAux of zero is empty. -/
theorem natHexAux_zero (fuel : Nat) : natHexAux fuel 0 = [] := by
  cases fuel <;> rfl

/-- natHexAux emits lowercase hexadecimal digits. -/
theorem natHexAux_digits :
    ∀ fuel n, n ≤ fuel → ∀ c ∈ natHexAux fuel n, isLowerHexC c = true := by
  intro fuel
  induction fuel with
  | zero =>
    intro n hn c hc
    simp [natHexAux] at hc
  | succ f ih =>
    intro n hn c hc
    by_cases h0 : n = 0
    · simp [natHexAux, h0] at hc
    · rw [natHexAux, if_neg h0] at hc
      rcases List.mem_append.1 hc with h | h
      · exact ih (n / 16) (by omega) c h
      · simp at h
        rw [h]
        exact isLowerHexC_hexDigitChar (by omega)

/-- Value of the digits natHexAux produces. -/
theorem natHexAux_val :
    ∀ fuel n acc, n ≤ fuel →
      hexAccVal acc (natHexAux fuel n) = acc * 16 ^ (natHexAux fuel n).length + n := by
  intro fuel
  induction fuel with
  | zero =>
    intro n acc hn
    have h0 : n = 0 := by omega
    simp [natHexAux, h0, hexAccVal]
  | succ f ih =>
    intro n acc hn
    by_cases h0 : n = 0
    · simp [natHexAux, h0, hexAccVal]
    · rw [natHexAux, if_neg h0, hexAccVal_append, ih (n / 16) acc (by omega),
        List.length_append, hexAccVal_cons]
      show hexAccVal _ [] = _
      rw [hexAccVal]
      simp only [List.foldl_nil, List.length_singleton]
      rw [hv_hexDigitChar (by omega)]
      simp only [Option.getD_some]
      have hpow : 16 ^ ((natHexAux f (n / 16)).length + 1) =
          16 ^ (natHexAux f (n / 16)).length * 16 := by
        rw [pow_succ]
      rw [hpow]
      generalize (16 : Nat) ^ (natHexAux f (n / 16)).length = P
      have hdm := Nat.div_add_mod n 16
      ring_nf
      omega

/-- Length bound on natHexAux digits. -/
theorem natHexAux_length :
    ∀ fuel n k, n ≤ fuel → n < 16 ^ k → (natHexAux fuel n).length ≤ k := by
  intro fuel
  induction fuel with
  | zero =>
    intro n k hn hk
    have h0 : n = 0 := by omega
    simp [natHexAux, h0]
  | succ f ih =>
    intro n k hn hk
    by_cases h0 : n = 0
    · simp [natHexAux, h0]
    · rw [natHexAux, if_neg h0, List.length_append]
      cases k with
      | zero =>
        exfalso
        simp at hk
        omega
      | succ k2 =>
        have hq : n / 16 < 16 ^ k2 := by
          rw [pow_succ] at hk
          omega
        have := ih (n / 16) k2 (by omega) hq
        simp only [List.length_singleton]
        omega

/-- Every character of the padded 8-digit header is a lowercase hexadecimal
digit. -/
theorem natHex8_digits (n : Nat) : ∀ c ∈ natHex8 n, isLowerHexC c = true := by
  intro c hc
  unfold natHex8 at hc
  rcases List.mem_append.1 hc with h | h
  · have := List.eq_of_mem_replicate h
    rw [this]
    decide
  · by_cases h0 : n = 0
    · simp [h0] at h
      rw [h]
      decide
    · rw [if_neg h0] at h
      exact natHexAux_digits n n (le_refl n) c h

/-- hexAccVal keeps a zero accumulator over leading zeros. -/
theorem hexAccVal_zeros (k : Nat) : hexAccVal 0 (List.replicate k '0') = 0 := by
  induction k with
  | zero => rfl
  | succ m ih =>
    rw [List.replicate_succ, hexAccVal_cons]
    have hz : hv '0' = some 0 := by decide
    simpa [hz] using ih

/-- Value of the padded 8-digit header. -/
theorem natHex8_val (n : Nat) : hexAccVal 0 (natHex8 n) = n := by
  unfold natHex8
  rw [hexAccVal_append, hexAccVal_zeros]
  by_cases h0 : n = 0
  · rw [if_pos h0, h0]
    rfl
  · rw [if_neg h0, natHexAux_val n n 0 (le_refl n)]
    simp

/-- Below 2^32 the header is exactly 8 digits. -/
theorem natHex8_length {n : Nat} (h : n < 4294967296) : (natHex8 n).length = 8 := by
  unfold natHex8
  by_cases h0 : n = 0
  · simp [h0]
  · rw [if_neg h0]
    have hlen : (natHexAux n n).length ≤ 8 := natHexAux_length n n 8 (le_refl n) (by norm_num; omega)
    rw [List.length_append, List.length_replicate]
    omega

/-- Values in the hv ranges are never the underscore or whitespace or sign
bytes. -/
theorem hv_isSome_ranges {c : Char} (h : (hv c).isSome) :
    (48 ≤ c.toNat ∧ c.toNat ≤ 57) ∨ (97 ≤ c.toNat ∧ c.toNat ≤ 102) ∨
      (65 ≤ c.toNat ∧ c.toNat ≤ 70) := by
  unfold hv at h
  by_cases h1 : 48 ≤ c.toNat ∧ c.toNat ≤ 57
  · exact Or.inl h1
  · rw [if_neg h1] at h
    by_cases h2 : 97 ≤ c.toNat ∧ c.toNat ≤ 102
    · exact Or.inr (Or.inl h2)
    · rw [if_neg h2] at h
      by_cases h3 : 65 ≤ c.toNat ∧ c.toNat ≤ 70
      · exact Or.inr (Or.inr h3)
      · rw [if_neg h3] at h
        simp at h

/-- hexGroups reads back a run of hexadecimal digit characters. -/
theorem hexGroups_digits {ds : List Char} (h : ∀ c ∈ ds, isHexC c = true) :
    ∀ acc, hexGroups (ds.map Char.toNat) false acc = some (hexAccVal acc ds) := by
  induction ds with
  | nil =>
    intro acc
    rfl
  | cons c cs ih =>
    intro acc
    have hc : (hv c).isSome := by
      have := h c (by simp)
      simpa [isHexC] using this
    obtain ⟨d, hd⟩ := Option.isSome_iff_exists.1 hc
    have hr := hv_isSome_ranges hc
    have hne95 : c.toNat ≠ 95 := by omega
    rw [List.map_cons, hexGroups, if_neg hne95,
      if_pos (by rw [hexValB_toNat, hd]; rfl)]
    rw [hexValB_toNat, hd, ih (fun e he => h e (by simp [he])), hexAccVal_cons, hd]

/-- hexStart reads back a nonempty run of hexadecimal digit characters. -/
theorem hexStart_digits {ds : List Char} (hne : ds ≠ [])
    (h : ∀ c ∈ ds, isHexC c = true) :
    hexStart (ds.map Char.toNat) = some (hexAccVal 0 ds) := by
  cases ds with
  | nil => exact absurd rfl hne
  | cons c cs =>
    have hc : (hv c).isSome := by
      have := h c (by simp)
      simpa [isHexC] using this
    obtain ⟨d, hd⟩ := Option.isSome_iff_exists.1 hc
    rw [List.map_cons, hexStart, if_pos (by rw [hexValB_toNat, hd]; rfl),
      hexValB_toNat, hd, hexGroups_digits (fun e he => h e (by simp [he])),
      hexAccVal_cons, hd]
    simp

/-- parseStrAux at the closing quote. -/
theorem parseStrAux_quote (fuel : Nat) (r : List Char) :
    parseStrAux (fuel + 1) ('"' :: r) = some ([], r) := rfl

/-- parseStrAux at a backslash defers to strEscStep. -/
theorem parseStrAux_esc (fuel : Nat) (e : Char) (r2 : List Char) :
    parseStrAux (fuel + 1) ('\\' :: e :: r2) =
      match strEscStep e r2 with
      | some (d, r3) => (parseStrAux fuel r3).map (fun p => (d :: p.1, p.2))
      | none => none := rfl

/-- parseStrAux at a plain character. -/
theorem parseStrAux_plain (fuel : Nat) {c : Char} (r : List Char) (h1 : c ≠ '"')
    (h2 : c ≠ '\\') (h3 : 32 ≤ c.toNat) :
    parseStrAux (fuel + 1) (c :: r) = (parseStrAux fuel r).map (fun p => (c :: p.1, p.2)) := by
  show (if c = '"' then some ([], r)
    else if c = '\\' then
      match r with
      | [] => none
      | e :: r2 =>
        match strEscStep e r2 with
        | some (d, r3) => (parseStrAux fuel r3).map (fun p => (d :: p.1, p.2))
        | none => none
    else if c.toNat < 32 then none
    else (parseStrAux fuel r).map (fun p => (c :: p.1, p.2))) = _
  rw [if_neg h1, if_neg h2, if_neg (by omega)]

/-- strEscStep at the u escape defers to the hexadecimal digits. -/
theorem strEscStep_u (h1 h2 h3 h4 : Char) (r3 : List Char) :
    strEscStep 'u' (h1 :: h2 :: h3 :: h4 :: r3) =
      match hv h1, hv h2, hv h3, hv h4 with
      | some d1, some d2, some d3, some d4 =>
        let n := ((d1 * 16 + d2) * 16 + d3) * 16 + d4
        if n < 55296 ∨ 57344 ≤ n then some (Char.ofNat n, r3)
        else if n < 56320 then
          match r3 with
          | '\\' :: 'u' :: g1 :: g2 :: g3 :: g4 :: r4 =>
            match hv g1, hv g2, hv g3, hv g4 with
            | some e1, some e2, some e3, some e4 =>
              let m := ((e1 * 16 + e2) * 16 + e3) * 16 + e4
              if 56320 ≤ m ∧ m < 57344 then
                some (Char.ofNat (65536 + (n - 55296) * 1024 + (m - 56320)), r4)
              else none
            | _, _, _, _ => none
          | _ => none
        else none
      | _, _, _, _ => none := rfl

/-- Every escape sequence is at least one character. -/
theorem escapeChar_length_pos (c : Char) : 1 ≤ (escapeChar c).length := by
  unfold escapeChar
  split_ifs <;> simp [hex4]

/-- Escaping cannot shorten a string. -/
theorem escapeStr_length_ge (s : List Char) : s.length ≤ (escapeStr s).length := by
  induction s with
  | nil => simp [escapeStr]
  | cons c cs ih =>
    rw [escapeStr, List.length_append, List.length_cons]
    have := escapeChar_length_pos c
    omega

/-- Parsing a u escape of four lowercase hexadecimal digits of n. -/
theorem strEscStep_u_hex4 {n : Nat} (h : n < 65536) (r3 : List Char) :
    strEscStep 'u' (hex4 n ++ r3) =
      if n < 55296 ∨ 57344 ≤ n then some (Char.ofNat n, r3)
      else if n < 56320 then
        match r3 with
        | '\\' :: 'u' :: g1 :: g2 :: g3 :: g4 :: r4 =>
          match hv g1, hv g2, hv g3, hv g4 with
          | some e1, some e2, some e3, some e4 =>
            let m := ((e1 * 16 + e2) * 16 + e3) * 16 + e4
            if 56320 ≤ m ∧ m < 57344 then
              some (Char.ofNat (65536 + (n - 55296) * 1024 + (m - 56320)), r4)
            else none
          | _, _, _, _ => none
        | _ => none
      else none := by
  show strEscStep 'u'
      (hexDigitChar (n / 4096 % 16) :: hexDigitChar (n / 256 % 16) ::
        hexDigitChar (n / 16 % 16) :: hexDigitChar (n % 16) :: r3) = _
  rw [strEscStep_u, hv_hexDigitChar (Nat.mod_lt _ (by norm_num)),
    hv_hexDigitChar (Nat.mod_lt _ (by norm_num)),
    hv_hexDigitChar (Nat.mod_lt _ (by norm_num)),
    hv_hexDigitChar (Nat.mod_lt _ (by norm_num))]
  show (let v := ((n / 4096 % 16 * 16 + n / 256 % 16) * 16 + n / 16 % 16) * 16 + n % 16
    if v < 55296 ∨ 57344 ≤ v then some (Char.ofNat v, r3)
    else if v < 56320 then
      match r3 with
      | '\\' :: 'u' :: g1 :: g2 :: g3 :: g4 :: r4 =>
        match hv g1, hv g2, hv g3, hv g4 with
        | some e1, some e2, some e3, some e4 =>
          let m := ((e1 * 16 + e2) * 16 + e3) * 16 + e4
          if 56320 ≤ m ∧ m < 57344 then
            some (Char.ofNat (65536 + (v - 55296) * 1024 + (m - 56320)), r4)
          else none
        | _, _, _, _ => none
      | _ => none
    else none) = _
  have hval : ((n / 4096 % 16 * 16 + n / 256 % 16) * 16 + n / 16 % 16) * 16 + n % 16 = n := by
    omega
  simp only [hval]

/-- Parsing a u escape holding a surrogate pair for the astral value n. -/
theorem strEscStep_u_pair {n : Nat} (hlo : 65536 ≤ n) (hhi : n < 1114112) (tail : List Char) :
    strEscStep 'u' (hex4 (55296 + (n - 65536) / 1024) ++
      ('\\' :: 'u' :: (hex4 (56320 + (n - 65536) % 1024) ++ tail))) =
      some (Char.ofNat n, tail) := by
  rw [strEscStep_u_hex4 (by omega)]
  rw [if_neg (by omega), if_pos (by omega)]
  have e1 : hv (hexDigitChar ((56320 + (n - 65536) % 1024) / 4096 % 16)) =
      some ((56320 + (n - 65536) % 1024) / 4096 % 16) := hv_hexDigitChar (Nat.mod_lt _ (by norm_num))
  have e2 : hv (hexDigitChar ((56320 + (n - 65536) % 1024) / 256 % 16)) =
      some ((56320 + (n - 65536) % 1024) / 256 % 16) := hv_hexDigitChar (Nat.mod_lt _ (by norm_num))
  have e3 : hv (hexDigitChar ((56320 + (n - 65536) % 1024) / 16 % 16)) =
      some ((56320 + (n - 65536) % 1024) / 16 % 16) := hv_hexDigitChar (Nat.mod_lt _ (by norm_num))
  have e4 : hv (hexDigitChar ((56320 + (n - 65536) % 1024) % 16)) =
      some ((56320 + (n - 65536) % 1024) % 16) := hv_hexDigitChar (Nat.mod_lt _ (by norm_num))
  rw [show hex4 (56320 + (n - 65536) % 1024) ++ tail =
      hexDigitChar ((56320 + (n - 65536) % 1024) / 4096 % 16) ::
      hexDigitChar ((56320 + (n - 65536) % 1024) / 256 % 16) ::
      hexDigitChar ((56320 + (n - 65536) % 1024) / 16 % 16) ::
      hexDigitChar ((56320 + (n - 65536) % 1024) % 16) :: tail from rfl]
  simp only [e1, e2, e3, e4]
  rw [if_pos (by constructor <;> omega)]
  have hval : 65536 + (55296 + (n - 65536) / 1024 - 55296) * 1024 +
      ((((56320 + (n - 65536) % 1024) / 4096 % 16 * 16 +
        (56320 + (n - 65536) % 1024) / 256 % 16) * 16 +
        (56320 + (n - 65536) % 1024) / 16 % 16) * 16 +
        (56320 + (n - 65536) % 1024) % 16 - 56320) = n := by
    omega
  rw [hval]

/-- Composing one decoded escape with the rest of the string body. -/
theorem parseStrAux_esc_some {f : Nat} {e d : Char} {t r3 cs rest : List Char}
    (hstep : strEscStep e t = some (d, r3)) (hrec : parseStrAux f r3 = some (cs, rest)) :
    parseStrAux (f + 1) ('\\' :: e :: t) = some (d :: cs, rest) := by
  rw [parseStrAux_esc, hstep]
  show (parseStrAux f r3).map (fun p => (d :: p.1, p.2)) = _
  rw [hrec]
  rfl

/-- The JSON string scanner reads back exactly what json.dumps escaping
produced, for every representable string. -/
theorem parseStrAux_escape :
    ∀ (s rest : List Char) (fuel : Nat), s.length + 1 ≤ fuel →
      parseStrAux fuel (escapeStr s ++ '"' :: rest) = some (s, rest) := by
  intro s
  induction s with
  | nil =>
    intro rest fuel hf
    cases fuel with
    | zero => exact (by omega : False).elim
    | succ f => exact parseStrAux_quote f rest
  | cons c cs ih =>
    intro rest fuel hf
    cases fuel with
    | zero => exact (by omega : False).elim
    | succ f =>
      have hrec := ih rest f (by simp at hf; omega)
      rw [escapeStr, List.append_assoc]
      by_cases h1 : c = '"'
      · rw [h1]
        rw [show escapeChar '"' ++ (escapeStr cs ++ '"' :: rest) =
          '\\' :: '"' :: (escapeStr cs ++ '"' :: rest) from rfl]
        exact parseStrAux_esc_some rfl hrec
      · by_cases h2 : c = '\\'
        · rw [h2]
          rw [show escapeChar '\\' ++ (escapeStr cs ++ '"' :: rest) =
            '\\' :: '\\' :: (escapeStr cs ++ '"' :: rest) from rfl]
          exact parseStrAux_esc_some rfl hrec
        · by_cases h3 : c.toNat = 8
          · rw [char_eq_of_toNat (show c.toNat = (Char.ofNat 8).toNat by rw [h3]; decide)]
            rw [show escapeChar (Char.ofNat 8) ++ (escapeStr cs ++ '"' :: rest) =
              '\\' :: 'b' :: (escapeStr cs ++ '"' :: rest) from rfl]
            exact parseStrAux_esc_some rfl hrec
          · by_cases h4 : c.toNat = 9
            · rw [char_eq_of_toNat (show c.toNat = (Char.ofNat 9).toNat by rw [h4]; decide)]
              rw [show escapeChar (Char.ofNat 9) ++ (escapeStr cs ++ '"' :: rest) =
                '\\' :: 't' :: (escapeStr cs ++ '"' :: rest) from rfl]
              exact parseStrAux_esc_some rfl hrec
            · by_cases h5 : c.toNat = 10
              · rw [char_eq_of_toNat (show c.toNat = (Char.ofNat 10).toNat by rw [h5]; decide)]
                rw [show escapeChar (Char.ofNat 10) ++ (escapeStr cs ++ '"' :: rest) =
                  '\\' :: 'n' :: (escapeStr cs ++ '"' :: rest) from rfl]
                exact parseStrAux_esc_some rfl hrec
              · by_cases h6 : c.toNat = 12
                · rw [char_eq_of_toNat (show c.toNat = (Char.ofNat 12).toNat by rw [h6]; decide)]
                  rw [show escapeChar (Char.ofNat 12) ++ (escapeStr cs ++ '"' :: rest) =
                    '\\' :: 'f' :: (escapeStr cs ++ '"' :: rest) from rfl]
                  exact parseStrAux_esc_some rfl hrec
                · by_cases h7 : c.toNat = 13
                  · rw [char_eq_of_toNat (show c.toNat = (Char.ofNat 13).toNat by rw [h7]; decide)]
                    rw [show escapeChar (Char.ofNat 13) ++ (escapeStr cs ++ '"' :: rest) =
                      '\\' :: 'r' :: (escapeStr cs ++ '"' :: rest) from rfl]
                    exact parseStrAux_esc_some rfl hrec
                  · by_cases h8 : c.toNat < 32 ∨ 126 < c.toNat
                    · by_cases hb : c.toNat < 65536
                      · rw [escapeChar, if_neg h1, if_neg h2, if_neg h3, if_neg h4,
                          if_neg h5, if_neg h6, if_neg h7, if_pos h8, if_pos hb]
                        rw [show ('\\' :: 'u' :: hex4 c.toNat) ++ (escapeStr cs ++ '"' :: rest) =
                          '\\' :: 'u' :: (hex4 c.toNat ++ (escapeStr cs ++ '"' :: rest)) from rfl]
                        refine parseStrAux_esc_some ?_ hrec
                        rw [strEscStep_u_hex4 hb,
                          if_pos (by rcases char_valid c with h | h <;> omega)]
                        rw [Char.ofNat_toNat]
                      · rw [escapeChar, if_neg h1, if_neg h2, if_neg h3, if_neg h4,
                          if_neg h5, if_neg h6, if_neg h7, if_pos h8, if_neg hb]
                        rw [show ('\\' :: 'u' :: hex4 (55296 + (c.toNat - 65536) / 1024) ++
                            '\\' :: 'u' :: hex4 (56320 + (c.toNat - 65536) % 1024)) ++
                            (escapeStr cs ++ '"' :: rest) =
                          '\\' :: 'u' :: (hex4 (55296 + (c.toNat - 65536) / 1024) ++
                            ('\\' :: 'u' :: (hex4 (56320 + (c.toNat - 65536) % 1024) ++
                              (escapeStr cs ++ '"' :: rest)))) from by
                          simp [List.cons_append, List.append_assoc]]
                        refine parseStrAux_esc_some ?_ hrec
                        have hvc : c.toNat < 1114112 := by
                          rcases char_valid c with h | h <;> omega
                        rw [strEscStep_u_pair (by omega) hvc, Char.ofNat_toNat]
                    · rw [escapeChar, if_neg h1, if_neg h2, if_neg h3, if_neg h4,
                        if_neg h5, if_neg h6, if_neg h7, if_neg h8]
                      rw [show [c] ++ (escapeStr cs ++ '"' :: rest) =
                        c :: (escapeStr cs ++ '"' :: rest) from rfl]
                      rw [parseStrAux_plain f _ h1 h2 (by omega), hrec]
                      rfl

/-- parseStringBody reads back exactly what json.dumps escaping produced. -/
theorem parseStringBody_escape (s rest : List Char) :
    parseStringBody (escapeStr s ++ '"' :: rest) = some (s, rest) := by
  unfold parseStringBody
  refine parseStrAux_escape s rest _ ?_
  have h1 := escapeStr_length_ge s
  simp
  omega

/-- Characters differ when their codes differ. -/
theorem char_ne_of_toNat_ne {c d : Char} (h : c.toNat ≠ d.toNat) : c ≠ d :=
  fun heq => h (congrArg Char.toNat heq)

/-- Code range of hexadecimal digit characters. -/
theorem hexDigitChar_range {d : Nat} (h : d < 16) :
    48 ≤ (hexDigitChar d).toNat ∧ (hexDigitChar d).toNat ≤ 102 := by
  have := hexDigitChar_toNat h
  by_cases h10 : d < 10 <;> simp [h10] at this <;> omega

/-- Every character of a four-digit hexadecimal group is printable ASCII. -/
theorem hex4_ascii (n : Nat) : ∀ e ∈ hex4 n, 32 ≤ e.toNat ∧ e.toNat ≤ 126 := by
  intro e he
  rcases (by simpa [hex4] using he : e = hexDigitChar (n / 4096 % 16) ∨
      e = hexDigitChar (n / 256 % 16) ∨ e = hexDigitChar (n / 16 % 16) ∨
      e = hexDigitChar (n % 16)) with rfl | rfl | rfl | rfl
  · have h := hexDigitChar_range (show n / 4096 % 16 < 16 from Nat.mod_lt _ (by norm_num))
    omega
  · have h := hexDigitChar_range (show n / 256 % 16 < 16 from Nat.mod_lt _ (by norm_num))
    omega
  · have h := hexDigitChar_range (show n / 16 % 16 < 16 from Nat.mod_lt _ (by norm_num))
    omega
  · have h := hexDigitChar_range (show n % 16 < 16 from Nat.mod_lt _ (by norm_num))
    omega

/-- Every character json.dumps escaping emits is printable ASCII. -/
theorem escapeChar_ascii (c : Char) : ∀ e ∈ escapeChar c, 32 ≤ e.toNat ∧ e.toNat ≤ 126 := by
  intro e he
  rw [escapeChar] at he
  split_ifs at he with h1 h2 h3 h4 h5 h6 h7 h8 hb
  · rcases (by simpa using he : e = '\\' ∨ e = '"') with rfl | rfl <;> decide
  · rcases (by simpa using he : e = '\\' ∨ e = '\\') with rfl | rfl <;> decide
  · rcases (by simpa using he : e = '\\' ∨ e = 'b') with rfl | rfl <;> decide
  · rcases (by simpa using he : e = '\\' ∨ e = 't') with rfl | rfl <;> decide
  · rcases (by simpa using he : e = '\\' ∨ e = 'n') with rfl | rfl <;> decide
  · rcases (by simpa using he : e = '\\' ∨ e = 'f') with rfl | rfl <;> decide
  · rcases (by simpa using he : e = '\\' ∨ e = 'r') with rfl | rfl <;> decide
  · rcases (by simpa using he : e = '\\' ∨ e = 'u' ∨ e ∈ hex4 c.toNat) with rfl | rfl | hm
    · decide
    · decide
    · exact hex4_ascii _ e hm
  · rcases (by simpa using he : e = '\\' ∨ e = 'u' ∨
        e ∈ hex4 (55296 + (c.toNat - 65536) / 1024) ∨ e = '\\' ∨ e = 'u' ∨
        e ∈ hex4 (56320 + (c.toNat - 65536) % 1024)) with rfl | rfl | hm | rfl | rfl | hm
    · decide
    · decide
    · exact hex4_ascii _ e hm
    · decide
    · decide
    · exact hex4_ascii _ e hm
  · rcases (by simpa using he : e = c) with rfl
    omega

/-- Every character of an escaped string body is printable ASCII. -/
theorem escapeStr_ascii (s : List Char) : ∀ e ∈ escapeStr s, 32 ≤ e.toNat ∧ e.toNat ≤ 126 := by
  induction s with
  | nil => simp [escapeStr]
  | cons c cs ih =>
    intro e he
    rw [escapeStr] at he
    rcases List.mem_append.1 he with h | h
    · exact escapeChar_ascii c e h
    · exact ih e h

/-- Every character of a serialized string is printable ASCII. -/
theorem dumpStr_ascii (s : List Char) : ∀ e ∈ dumpStr s, 32 ≤ e.toNat ∧ e.toNat ≤ 126 := by
  intro e he
  rw [dumpStr] at he
  rcases (by simpa using he : e = '"' ∨ e ∈ escapeStr s ++ ['"']) with rfl | hm
  · decide
  · rcases List.mem_append.1 hm with h | h
    · exact escapeStr_ascii s e h
    · rcases (by simpa using h : e = '"') with rfl
      decide

/-- Digit characters are printable ASCII. -/
theorem isDigitC_ascii {c : Char} (h : isDigitC c = true) :
    32 ≤ c.toNat ∧ c.toNat ≤ 126 := by
  simp [isDigitC] at h
  omega

/-- Every character of a serialized integer is printable ASCII. -/
theorem intDump_ascii (i : Int) : ∀ e ∈ intDump i, 32 ≤ e.toNat ∧ e.toNat ≤ 126 := by
  intro e he
  rw [intDump] at he
  split_ifs at he with hneg
  · rcases (by simpa using he : e = '-' ∨ e ∈ natDec i.natAbs) with rfl | hm
    · decide
    · exact isDigitC_ascii (natDec_digits _ e hm)
  · exact isDigitC_ascii (natDec_digits _ e he)

mutual

/-- Every character json.dumps emits is printable ASCII (ensure_ascii). -/
theorem dumps_ascii : ∀ (v : Json), ∀ c ∈ dumps v, 32 ≤ c.toNat ∧ c.toNat ≤ 126 := by
  intro v
  cases v with
  | null =>
    intro c hc
    rcases (by simpa [dumps] using hc : c = 'n' ∨ c = 'u' ∨ c = 'l' ∨ c = 'l') with
      rfl | rfl | rfl | rfl <;> decide
  | bool b =>
    cases b with
    | true =>
      intro c hc
      rcases (by simpa [dumps] using hc : c = 't' ∨ c = 'r' ∨ c = 'u' ∨ c = 'e') with
        rfl | rfl | rfl | rfl <;> decide
    | false =>
      intro c hc
      rcases (by simpa [dumps] using hc : c = 'f' ∨ c = 'a' ∨ c = 'l' ∨ c = 's' ∨ c = 'e') with
        rfl | rfl | rfl | rfl | rfl <;> decide
  | num i =>
    intro c hc
    exact intDump_ascii i c (by simpa [dumps] using hc)
  | str s =>
    intro c hc
    exact dumpStr_ascii s c (by simpa [dumps] using hc)
  | arr xs =>
    intro c hc
    rcases (by simpa [dumps] using hc : c = '[' ∨ c ∈ dumpsItems xs) with rfl | hm
    · decide
    · exact dumpsItems_ascii xs c hm
  | obj ms =>
    intro c hc
    rcases (by simpa [dumps] using hc : c = '{' ∨ c ∈ dumpsMembers ms) with rfl | hm
    · decide
    · exact dumpsMembers_ascii ms c hm

/-- Every character of serialized list items is printable ASCII. -/
theorem dumpsItems_ascii : ∀ (xs : JsonList), ∀ c ∈ dumpsItems xs, 32 ≤ c.toNat ∧ c.toNat ≤ 126 := by
  intro xs
  cases xs with
  | nil =>
    intro c hc
    rcases (by simpa [dumpsItems] using hc : c = ']') with rfl
    decide
  | cons x tl =>
    cases tl with
    | nil =>
      intro c hc
      rcases (by simpa [dumpsItems] using hc : c ∈ dumps x ∨ c = ']') with h | rfl
      · exact dumps_ascii x c h
      · decide
    | cons y tl2 =>
      intro c hc
      rcases (by simpa [dumpsItems] using hc : c ∈ dumps x ∨ c = ',' ∨ c = ' ' ∨
          c ∈ dumpsItems (JsonList.cons y tl2)) with h | rfl | rfl | hm
      · exact dumps_ascii x c h
      · decide
      · decide
      · exact dumpsItems_ascii (JsonList.cons y tl2) c hm

/-- Every character of serialized dict members is printable ASCII. -/
theorem dumpsMembers_ascii :
    ∀ (ms : JsonMembers), ∀ c ∈ dumpsMembers ms, 32 ≤ c.toNat ∧ c.toNat ≤ 126 := by
  intro ms
  cases ms with
  | nil =>
    intro c hc
    rcases (by simpa [dumpsMembers] using hc : c = '}') with rfl
    decide
  | cons k v tl =>
    cases tl with
    | nil =>
      intro c hc
      rcases (by simpa [dumpsMembers] using hc : c ∈ dumpStr k ∨ c = ':' ∨ c = ' ' ∨
          c ∈ dumps v ∨ c = '}') with h | rfl | rfl | h | rfl
      · exact dumpStr_ascii k c h
      · decide
      · decide
      · exact dumps_ascii v c h
      · decide
    | cons k2 v2 tl2 =>
      intro c hc
      rcases (by simpa [dumpsMembers] using hc : c ∈ dumpStr k ∨ c = ':' ∨ c = ' ' ∨
          c ∈ dumps v ∨ c = ',' ∨ c = ' ' ∨ c ∈ dumpsMembers (JsonMembers.cons k2 v2 tl2)) with
        h | rfl | rfl | h | rfl | rfl | hm
      · exact dumpStr_ascii k c h
      · decide
      · decide
      · exact dumps_ascii v c h
      · decide
      · decide
      · exact dumpsMembers_ascii (JsonMembers.cons k2 v2 tl2) c hm

end

/-- Serialized payloads are ASCII, hence below 128. -/
theorem dumps_lt128 (v : Json) : ∀ c ∈ dumps v, c.toNat < 128 := by
  intro c hc
  have := dumps_ascii v c hc
  omega

/-- The payload bytes are exactly the character codes (ASCII payload). -/
theorem utf8Encode_dumps (v : Json) : utf8Encode (dumps v) = (dumps v).map Char.toNat :=
  utf8Encode_ascii (dumps_lt128 v)

/-- Byte length of the payload equals its character count: the substance of
the length header being correct, since send_chunk measures characters while
the stream carries bytes. -/
theorem utf8Encode_dumps_length (v : Json) :
    (utf8Encode (dumps v)).length = (dumps v).length := by
  rw [utf8Encode_dumps]
  simp

/-- isWsC spelled through character codes. -/
theorem isWsC_eq_false {c : Char} (h : c.toNat ≠ 32 ∧ c.toNat ≠ 9 ∧ c.toNat ≠ 10 ∧ c.toNat ≠ 13) :
    isWsC c = false := by
  simp only [isWsC]
  rw [decide_eq_false]
  rintro (h1 | h1 | h1 | h1) <;>
    · have := congrArg Char.toNat h1
      simp at this
      omega

/-- Digit characters are not whitespace and close no bracket. -/
theorem isDigitC_good {c : Char} (h : isDigitC c = true) :
    isWsC c = false ∧ c ≠ ']' ∧ c ≠ '}' := by
  simp only [isDigitC] at h
  rw [decide_eq_true_eq] at h
  refine ⟨isWsC_eq_false (by omega), ?_, ?_⟩ <;>
    · apply char_ne_of_toNat_ne
      simp
      omega

/-- The first serialized character of any value: never whitespace and never
a closing bracket or brace. -/
theorem dumps_head (v : Json) :
    ∃ c cs, dumps v = c :: cs ∧ isWsC c = false ∧ c ≠ ']' ∧ c ≠ '}' := by
  cases v with
  | null => refine ⟨'n', _, rfl, ?_, ?_, ?_⟩ <;> decide
  | bool b =>
    cases b with
    | true => refine ⟨'t', _, rfl, ?_, ?_, ?_⟩ <;> decide
    | false => refine ⟨'f', _, rfl, ?_, ?_, ?_⟩ <;> decide
  | num i =>
    rw [dumps, intDump]
    by_cases hneg : i < 0
    · rw [if_pos hneg]
      refine ⟨'-', _, rfl, ?_, ?_, ?_⟩ <;> decide
    · rw [if_neg hneg, natDec]
      by_cases h0 : i.natAbs = 0
      · rw [if_pos h0]
        refine ⟨'0', _, rfl, ?_, ?_, ?_⟩ <;> decide
      · rw [if_neg h0]
        obtain ⟨d, ds, hds, hdig, hne⟩ := natDecAux_head i.natAbs i.natAbs h0 (le_refl _)
        obtain ⟨hw, hb, hc⟩ := isDigitC_good hdig
        exact ⟨d, ds, hds, hw, hb, hc⟩
  | str s => refine ⟨'"', _, rfl, ?_, ?_, ?_⟩ <;> decide
  | arr xs => refine ⟨'[', _, rfl, ?_, ?_, ?_⟩ <;> decide
  | obj ms => refine ⟨'{', _, rfl, ?_, ?_, ?_⟩ <;> decide

/-- skipWs does not move over a non-whitespace head. -/
theorem skipWs_cons_false {c : Char} (r : List Char) (h : isWsC c = false) :
    skipWs (c :: r) = c :: r := by
  rw [skipWs, if_neg (by simp [h])]

/-- skipWs does not move at the start of a serialized value. -/
theorem skipWs_dumps (v : Json) (t : List Char) : skipWs (dumps v ++ t) = dumps v ++ t := by
  obtain ⟨c, cs, hd, hw, _, _⟩ := dumps_head v
  rw [hd, List.cons_append, skipWs_cons_false _ hw]

/-- Appending the empty member list on the right. -/
theorem mAppend_nil_right : ∀ (ms : JsonMembers), mAppend ms .nil = ms
  | .nil => rfl
  | .cons k v tl => by rw [mAppend, mAppend_nil_right tl]

/-- Associativity of member concatenation. -/
theorem mAppend_assoc : ∀ (a : JsonMembers) (b c : JsonMembers),
    mAppend (mAppend a b) c = mAppend a (mAppend b c)
  | .nil, b, c => rfl
  | .cons k v tl, b, c => by rw [mAppend, mAppend, mAppend, mAppend_assoc tl]

/-- Key membership over concatenation. -/
theorem keyMemM_mAppend : ∀ (k : List Char) (a b : JsonMembers),
    keyMemM k (mAppend a b) = (keyMemM k a || keyMemM k b)
  | k, .nil, b => by simp [mAppend, keyMemM]
  | k, .cons k2 v tl, b => by
    rw [mAppend, keyMemM, keyMemM, keyMemM_mAppend k tl]
    by_cases h : k2 = k <;> simp [h]

/-- Setting a fresh key appends the pair. -/
theorem dictSetM_fresh : ∀ {acc : JsonMembers} {k : List Char} {v : Json},
    keyMemM k acc = false → dictSetM acc k v = mAppend acc (.cons k v .nil)
  | .nil, k, v, _ => rfl
  | .cons k2 v2 tl, k, v, h => by
    rw [keyMemM] at h
    have h1 : k2 ≠ k := by
      intro heq
      simp [heq] at h
    have h2 : keyMemM k tl = false := by
      simpa [h1] using h
    rw [dictSetM, if_neg h1, mAppend, dictSetM_fresh h2]

/-- Key membership after setting a key. -/
theorem keyMemM_dictSetM : ∀ (k2 k : List Char) (v : Json) (acc : JsonMembers),
    keyMemM k2 (dictSetM acc k v) = (keyMemM k2 acc || decide (k = k2))
  | k2, k, v, .nil => by simp [dictSetM, keyMemM]
  | k2, k, v, .cons k3 v3 tl => by
    rw [dictSetM]
    by_cases h : k3 = k
    · rw [if_pos h, keyMemM, keyMemM, h]
      by_cases h2 : k = k2 <;> simp [h2]
    · rw [if_neg h, keyMemM, keyMemM, keyMemM_dictSetM k2 k v tl]
      by_cases h2 : k3 = k2 <;> simp [h2]

/-- Folding distinct-keyed members into an accumulator they are disjoint
from just concatenates. -/
theorem dedupeAux_disjoint :
    ∀ (ms acc : JsonMembers), wfMembers ms = true →
      (∀ k, keyMemM k ms = true → keyMemM k acc = false) →
      dedupeAux acc ms = mAppend acc ms
  | .nil, acc, _, _ => by rw [dedupeAux, mAppend_nil_right]
  | .cons k v tl, acc, hwf, hdisj => by
    have hk : keyMemM k tl = false ∧ wfMembers tl = true := by
      simp [wfMembers] at hwf
      exact ⟨hwf.1, hwf.2.2⟩
    rw [dedupeAux, dictSetM_fresh (hdisj k (by simp [keyMemM]))]
    rw [dedupeAux_disjoint tl (mAppend acc (JsonMembers.cons k v JsonMembers.nil)) hk.2 ?_,
      mAppend_assoc]
    · rfl
    · intro k2 hk2
      rw [keyMemM_mAppend]
      have ha : keyMemM k2 acc = false := hdisj k2 (by simp [keyMemM, hk2])
      have hb : k ≠ k2 := by
        intro heq
        rw [heq] at hk
        rw [hk2] at hk
        simp at hk
      simp [keyMemM, ha, hb]

/-- Parsed members with pairwise-distinct keys survive dict building
unchanged. -/
theorem dedupeMembers_wf {ms : JsonMembers} (h : wfMembers ms = true) :
    dedupeMembers ms = ms := by
  unfold dedupeMembers
  rw [dedupeAux_disjoint ms .nil h (fun k _ => rfl)]
  rfl

/-- A comma continuation cannot extend an integer literal. -/
theorem numSafe_comma (X : List Char) : numSafe (',' :: X) := ⟨rfl, rfl⟩

/-- A closing bracket cannot extend an integer literal. -/
theorem numSafe_rbracket (X : List Char) : numSafe (']' :: X) := ⟨rfl, rfl⟩

/-- A closing brace cannot extend an integer literal. -/
theorem numSafe_rbrace (X : List Char) : numSafe ('}' :: X) := ⟨rfl, rfl⟩

/-- End of input cannot extend an integer literal. -/
theorem numSafe_nil : numSafe [] := ⟨rfl, rfl⟩

/-- Serialized values are nonempty. -/
theorem dumps_length_pos (v : Json) : 1 ≤ (dumps v).length := by
  obtain ⟨c, cs, hd, _, _, _⟩ := dumps_head v
  rw [hd]
  simp

/-- The items of a nonempty list start with the first serialized element. -/
theorem dumpsItems_cons_decomp (x : Json) (tl : JsonList) :
    ∃ T, dumpsItems (JsonList.cons x tl) = dumps x ++ T := by
  cases tl with
  | nil => exact ⟨[']'], rfl⟩
  | cons y tl2 => exact ⟨',' :: ' ' :: dumpsItems (JsonList.cons y tl2), rfl⟩

/-- At a digit head the value parser always takes the number branch. -/
theorem parseValue_num_head (f : Nat) (c : Char) (cs : List Char) (hdig : isDigitC c = true) :
    parseValue (f + 1) (c :: cs) =
      match parseNumber (c :: cs) with
      | some (n, r) => some (Json.num (n : Int), r)
      | none => none := by
  have hor : c.toNat = 48 ∨ c.toNat = 49 ∨ c.toNat = 50 ∨ c.toNat = 51 ∨ c.toNat = 52 ∨
      c.toNat = 53 ∨ c.toNat = 54 ∨ c.toNat = 55 ∨ c.toNat = 56 ∨ c.toNat = 57 := by
    simp [isDigitC] at hdig
    omega
  rcases hor with h | h | h | h | h | h | h | h | h | h <;>
    (rw [← Char.ofNat_toNat c, h]; rfl)

/-- The members of a nonempty dict start with the quoted first key. -/
theorem dumpsMembers_cons_decomp (k : List Char) (v : Json) (tl : JsonMembers) :
    ∃ Z, dumpsMembers (JsonMembers.cons k v tl) = '"' :: (escapeStr k ++ '"' :: Z) := by
  cases tl with
  | nil =>
    refine ⟨':' :: ' ' :: dumps v ++ ['}'], ?_⟩
    rw [dumpsMembers, dumpStr]
    simp
  | cons k2 v2 tl2 =>
    refine ⟨':' :: ' ' :: dumps v ++ ',' :: ' ' :: dumpsMembers (JsonMembers.cons k2 v2 tl2), ?_⟩
    rw [dumpsMembers, dumpStr]
    simp

mutual

/-- json.loads scanning reads back exactly what json.dumps wrote, for every
representable value, leaving the continuation untouched: the heart of the
framing round trip. -/
theorem parseValue_dumps : ∀ (v : Json) (rest : List Char) (fuel : Nat),
    wellFormed v = true → (dumps v).length ≤ fuel → numSafe rest →
    parseValue fuel (dumps v ++ rest) = some (v, rest)
  | .null, rest, fuel, _, hf, _ => by
    obtain ⟨f, rfl⟩ : ∃ f, fuel = f + 1 := ⟨fuel - 1, by simp [dumps] at hf; omega⟩
    rfl
  | .bool true, rest, fuel, _, hf, _ => by
    obtain ⟨f, rfl⟩ : ∃ f, fuel = f + 1 := ⟨fuel - 1, by simp [dumps] at hf; omega⟩
    rfl
  | .bool false, rest, fuel, _, hf, _ => by
    obtain ⟨f, rfl⟩ : ∃ f, fuel = f + 1 := ⟨fuel - 1, by simp [dumps] at hf; omega⟩
    rfl
  | .num i, rest, fuel, _, hf, hns => by
    obtain ⟨hns1, hns2⟩ := hns
    have hlen : 1 ≤ (dumps (Json.num i)).length := dumps_length_pos _
    obtain ⟨f, rfl⟩ : ∃ f, fuel = f + 1 := ⟨fuel - 1, by omega⟩
    simp only [dumps] at hf ⊢
    by_cases hneg : i < 0
    · rw [intDump, if_pos hneg]
      show (match parseNumber (natDec i.natAbs ++ rest) with
        | some (n, r) => some (Json.num (-(n : Int)), r)
        | none => none) = some (Json.num i, rest)
      rw [parseNumber_natDec hns1 hns2]
      show some (Json.num (-((i.natAbs : Nat) : Int)), rest) = some (Json.num i, rest)
      rw [show -((i.natAbs : Nat) : Int) = i from by omega]
    · rw [intDump, if_neg hneg]
      have hcast : ((i.natAbs : Nat) : Int) = i := by omega
      by_cases h0 : i.natAbs = 0
      · rw [natDec, if_pos h0]
        show (match parseNumber (natDec 0 ++ rest) with
          | some (n, r) => some (Json.num (n : Int), r)
          | none => none) = some (Json.num i, rest)
        rw [parseNumber_natDec hns1 hns2]
        show some (Json.num ((0 : Nat) : Int), rest) = some (Json.num i, rest)
        rw [show ((0 : Nat) : Int) = i from by omega]
      · obtain ⟨d, ds, hds, hdig, hdne0⟩ := natDecAux_head i.natAbs i.natAbs h0 (le_refl _)
        have hd48 : (48 ≤ d.toNat ∧ d.toNat ≤ 57) := by
          simpa [isDigitC] using hdig
        rw [natDec, if_neg h0, hds]
        rw [List.cons_append, parseValue_num_head f d _ hdig]
        rw [show d :: (ds ++ rest) = natDec i.natAbs ++ rest from by
          rw [natDec, if_neg h0, hds, List.cons_append]]
        rw [parseNumber_natDec hns1 hns2]
        show some (Json.num ((i.natAbs : Nat) : Int), rest) = some (Json.num i, rest)
        rw [hcast]
  | .str s, rest, fuel, _, hf, _ => by
    have hlen : 1 ≤ (dumps (Json.str s)).length := dumps_length_pos _
    obtain ⟨f, rfl⟩ : ∃ f, fuel = f + 1 := ⟨fuel - 1, by omega⟩
    simp only [dumps] at hf ⊢
    rw [dumpStr, List.cons_append, List.cons_append, List.append_assoc]
    show (match parseStringBody (escapeStr s ++ (['"'] ++ rest)) with
      | some (s2, r) => some (Json.str s2, r)
      | none => none) = some (Json.str s, rest)
    rw [show (['"'] ++ rest : List Char) = '"' :: rest from rfl]
    rw [parseStringBody_escape]
  | .arr .nil, rest, fuel, _, hf, _ => by
    obtain ⟨f, rfl⟩ : ∃ f, fuel = f + 1 := ⟨fuel - 1, by simp [dumps, dumpsItems] at hf; omega⟩
    rfl
  | .arr (.cons x tl), rest, fuel, hwf, hf, _ => by
    have hwfl : wfList (JsonList.cons x tl) = true := by
      simpa [wellFormed] using hwf
    have hlenpos := dumps_length_pos x
    obtain ⟨f, rfl⟩ : ∃ f, fuel = f + 1 := ⟨fuel - 1, by
      have := dumps_length_pos (Json.arr (JsonList.cons x tl))
      omega⟩
    have hlen : (dumpsItems (JsonList.cons x tl)).length ≤ f := by
      simp only [dumps, List.length_cons] at hf
      omega
    show (match skipWs (dumpsItems (JsonList.cons x tl) ++ rest) with
      | [] => none
      | c2 :: cs2 =>
        if c2 = ']' then some (Json.arr JsonList.nil, cs2)
        else
          match parseItems f (c2 :: cs2) with
          | some (xs, r) => some (Json.arr xs, r)
          | none => none) = some (Json.arr (JsonList.cons x tl), rest)
    obtain ⟨T, hT⟩ := dumpsItems_cons_decomp x tl
    have heq : dumpsItems (JsonList.cons x tl) ++ rest = dumps x ++ (T ++ rest) := by
      rw [hT, List.append_assoc]
    obtain ⟨c, cs', hd, hw, hb, _⟩ := dumps_head x
    rw [heq, skipWs_dumps, hd, List.cons_append]
    show (if c = ']' then some (Json.arr JsonList.nil, cs' ++ (T ++ rest))
      else
        match parseItems f (c :: (cs' ++ (T ++ rest))) with
        | some (xs, r) => some (Json.arr xs, r)
        | none => none) = some (Json.arr (JsonList.cons x tl), rest)
    rw [if_neg hb]
    rw [show c :: (cs' ++ (T ++ rest)) = dumpsItems (JsonList.cons x tl) ++ rest from by
      rw [heq, hd, List.cons_append]]
    rw [parseItems_dumps (JsonList.cons x tl) rest f hwfl hlen (fun h => JsonList.noConfusion h)]
  | .obj .nil, rest, fuel, _, hf, _ => by
    obtain ⟨f, rfl⟩ : ∃ f, fuel = f + 1 := ⟨fuel - 1, by simp [dumps, dumpsMembers] at hf; omega⟩
    rfl
  | .obj (.cons k v tl), rest, fuel, hwf, hf, _ => by
    have hwfm : wfMembers (JsonMembers.cons k v tl) = true := by
      simpa [wellFormed] using hwf
    obtain ⟨f, rfl⟩ : ∃ f, fuel = f + 1 := ⟨fuel - 1, by
      have := dumps_length_pos (Json.obj (JsonMembers.cons k v tl))
      omega⟩
    have hlen : (dumpsMembers (JsonMembers.cons k v tl)).length ≤ f := by
      simp only [dumps, List.length_cons] at hf
      omega
    show (match skipWs (dumpsMembers (JsonMembers.cons k v tl) ++ rest) with
      | [] => none
      | c2 :: cs2 =>
        if c2 = '}' then some (Json.obj JsonMembers.nil, cs2)
        else
          match parseMembers f (c2 :: cs2) with
          | some (ms, r) => some (Json.obj (dedupeMembers ms), r)
          | none => none) = some (Json.obj (JsonMembers.cons k v tl), rest)
    obtain ⟨Z, hZ⟩ := dumpsMembers_cons_decomp k v tl
    rw [hZ, List.cons_append, skipWs_cons_false _ (by decide)]
    show (if ('"' : Char) = '}' then
        some (Json.obj JsonMembers.nil, (escapeStr k ++ '"' :: Z) ++ rest)
      else
        match parseMembers f ('"' :: ((escapeStr k ++ '"' :: Z) ++ rest)) with
        | some (ms, r) => some (Json.obj (dedupeMembers ms), r)
        | none => none) = some (Json.obj (JsonMembers.cons k v tl), rest)
    rw [if_neg (by decide)]
    rw [show '"' :: ((escapeStr k ++ '"' :: Z) ++ rest) =
        dumpsMembers (JsonMembers.cons k v tl) ++ rest from by
      rw [hZ, List.cons_append]]
    rw [parseMembers_dumps (JsonMembers.cons k v tl) rest f hwfm hlen (fun h => JsonMembers.noConfusion h)]
    show some (Json.obj (dedupeMembers (JsonMembers.cons k v tl)), rest) =
      some (Json.obj (JsonMembers.cons k v tl), rest)
    rw [dedupeMembers_wf hwfm]

/-- parseItems reads back the serialized items of a nonempty list. -/
theorem parseItems_dumps : ∀ (xs : JsonList) (rest : List Char) (fuel : Nat),
    wfList xs = true → (dumpsItems xs).length ≤ fuel → xs ≠ JsonList.nil →
    parseItems fuel (dumpsItems xs ++ rest) = some (xs, rest)
  | .nil, _, _, _, _, hne => absurd rfl hne
  | .cons x tl, rest, fuel, hwf, hf, _ => by
    have hwfx : wellFormed x = true ∧ wfList tl = true := by
      simpa [wfList] using hwf
    have hlenpos := dumps_length_pos x
    cases tl with
    | nil =>
      have hlen1 : (dumpsItems (JsonList.cons x JsonList.nil)).length = (dumps x).length + 1 := by
        rw [dumpsItems]
        simp
      obtain ⟨f, rfl⟩ : ∃ f, fuel = f + 1 := ⟨fuel - 1, by omega⟩
      rw [parseItems]
      rw [show dumpsItems (JsonList.cons x JsonList.nil) ++ rest = dumps x ++ (']' :: rest) from by
        rw [dumpsItems, List.append_assoc]
        rfl]
      rw [parseValue_dumps x (']' :: rest) f hwfx.1 (by omega) (numSafe_rbracket rest)]
      show (match skipWs (']' :: rest) with
        | ',' :: r2 =>
          match parseItems f (skipWs r2) with
          | some (xs, r3) => some (JsonList.cons x xs, r3)
          | none => none
        | ']' :: r2 => some (JsonList.cons x JsonList.nil, r2)
        | _ => none) = some (JsonList.cons x JsonList.nil, rest)
      rw [skipWs_cons_false _ (by decide)]
      rfl
    | cons y tl2 =>
      have hlenpos2 := dumps_length_pos y
      obtain ⟨T2, hT2⟩ := dumpsItems_cons_decomp y tl2
      have hlenitems : 1 ≤ (dumpsItems (JsonList.cons y tl2)).length := by
        rw [hT2, List.length_append]
        omega
      have hlen1 : (dumpsItems (JsonList.cons x (JsonList.cons y tl2))).length =
          (dumps x).length + 2 + (dumpsItems (JsonList.cons y tl2)).length := by
        rw [dumpsItems]
        simp
        omega
      obtain ⟨f, rfl⟩ : ∃ f, fuel = f + 1 := ⟨fuel - 1, by omega⟩
      rw [parseItems]
      rw [show dumpsItems (JsonList.cons x (JsonList.cons y tl2)) ++ rest =
          dumps x ++ (',' :: ' ' :: (dumpsItems (JsonList.cons y tl2) ++ rest)) from by
        rw [dumpsItems, List.append_assoc]
        rfl]
      rw [parseValue_dumps x _ f hwfx.1 (by omega) (numSafe_comma _)]
      show (match skipWs (',' :: ' ' :: (dumpsItems (JsonList.cons y tl2) ++ rest)) with
        | ',' :: r2 =>
          match parseItems f (skipWs r2) with
          | some (xs, r3) => some (JsonList.cons x xs, r3)
          | none => none
        | ']' :: r2 => some (JsonList.cons x JsonList.nil, r2)
        | _ => none) = some (JsonList.cons x (JsonList.cons y tl2), rest)
      rw [skipWs_cons_false _ (by decide)]
      show (match parseItems f (skipWs (' ' :: (dumpsItems (JsonList.cons y tl2) ++ rest))) with
        | some (xs, r3) => some (JsonList.cons x xs, r3)
        | none => none) = some (JsonList.cons x (JsonList.cons y tl2), rest)
      rw [show skipWs (' ' :: (dumpsItems (JsonList.cons y tl2) ++ rest)) =
          skipWs (dumpsItems (JsonList.cons y tl2) ++ rest) from by
        rw [skipWs, if_pos (by decide)]]
      rw [show dumpsItems (JsonList.cons y tl2) ++ rest = dumps y ++ (T2 ++ rest) from by
        rw [hT2, List.append_assoc]]
      rw [skipWs_dumps]
      rw [show dumps y ++ (T2 ++ rest) = dumpsItems (JsonList.cons y tl2) ++ rest from by
        rw [hT2, List.append_assoc]]
      rw [parseItems_dumps (JsonList.cons y tl2) rest f hwfx.2 (by omega) (fun h => JsonList.noConfusion h)]

/-- parseMembers reads back the serialized members of a nonempty dict. -/
theorem parseMembers_dumps : ∀ (ms : JsonMembers) (rest : List Char) (fuel : Nat),
    wfMembers ms = true → (dumpsMembers ms).length ≤ fuel → ms ≠ JsonMembers.nil →
    parseMembers fuel (dumpsMembers ms ++ rest) = some (ms, rest)
  | .nil, _, _, _, _, hne => absurd rfl hne
  | .cons k v tl, rest, fuel, hwf, hf, _ => by
    have hwfv : wellFormed v = true ∧ wfMembers tl = true := by
      simp [wfMembers] at hwf
      exact ⟨hwf.2.1, hwf.2.2⟩
    have hlenpos := dumps_length_pos v
    have hesc := escapeStr_length_ge k
    cases tl with
    | nil =>
      have hlen1 : (dumpsMembers (JsonMembers.cons k v JsonMembers.nil)).length =
          (escapeStr k).length + 4 + (dumps v).length + 1 := by
        rw [dumpsMembers, dumpStr]
        simp
        omega
      obtain ⟨f, rfl⟩ : ∃ f, fuel = f + 1 := ⟨fuel - 1, by omega⟩
      rw [show dumpsMembers (JsonMembers.cons k v JsonMembers.nil) ++ rest =
          '"' :: (escapeStr k ++ '"' :: (':' :: ' ' :: (dumps v ++ ('}' :: rest)))) from by
        rw [dumpsMembers, dumpStr]
        simp]
      show (match parseStringBody (escapeStr k ++ '"' :: (':' :: ' ' :: (dumps v ++ ('}' :: rest)))) with
        | some (kk, r) =>
          match skipWs r with
          | ':' :: r2 =>
            match parseValue f (skipWs r2) with
            | some (vv, r3) =>
              match skipWs r3 with
              | ',' :: r4 =>
                match parseMembers f (skipWs r4) with
                | some (ms2, r5) => some (JsonMembers.cons kk vv ms2, r5)
                | none => none
              | '}' :: r4 => some (JsonMembers.cons kk vv JsonMembers.nil, r4)
              | _ => none
            | none => none
          | _ => none
        | none => none) = some (JsonMembers.cons k v JsonMembers.nil, rest)
      rw [parseStringBody_escape]
      show (match skipWs (':' :: ' ' :: (dumps v ++ ('}' :: rest))) with
        | ':' :: r2 =>
          match parseValue f (skipWs r2) with
          | some (vv, r3) =>
            match skipWs r3 with
            | ',' :: r4 =>
              match parseMembers f (skipWs r4) with
              | some (ms2, r5) => some (JsonMembers.cons k vv ms2, r5)
              | none => none
            | '}' :: r4 => some (JsonMembers.cons k vv JsonMembers.nil, r4)
            | _ => none
          | none => none
        | _ => none) = some (JsonMembers.cons k v JsonMembers.nil, rest)
      rw [skipWs_cons_false _ (by decide)]
      show (match parseValue f (skipWs (' ' :: (dumps v ++ ('}' :: rest)))) with
        | some (vv, r3) =>
          match skipWs r3 with
          | ',' :: r4 =>
            match parseMembers f (skipWs r4) with
            | some (ms2, r5) => some (JsonMembers.cons k vv ms2, r5)
            | none => none
          | '}' :: r4 => some (JsonMembers.cons k vv JsonMembers.nil, r4)
          | _ => none
        | none => none) = some (JsonMembers.cons k v JsonMembers.nil, rest)
      rw [show skipWs (' ' :: (dumps v ++ ('}' :: rest))) = skipWs (dumps v ++ ('}' :: rest)) from by
        rw [skipWs, if_pos (by decide)]]
      rw [skipWs_dumps]
      rw [parseValue_dumps v ('}' :: rest) f hwfv.1 (by omega) (numSafe_rbrace rest)]
      show (match skipWs ('}' :: rest) with
        | ',' :: r4 =>
          match parseMembers f (skipWs r4) with
          | some (ms2, r5) => some (JsonMembers.cons k v ms2, r5)
          | none => none
        | '}' :: r4 => some (JsonMembers.cons k v JsonMembers.nil, r4)
        | _ => none) = some (JsonMembers.cons k v JsonMembers.nil, rest)
      rw [skipWs_cons_false _ (by decide)]
      rfl
    | cons k2 v2 tl2 =>
      obtain ⟨Z2, hZ2⟩ := dumpsMembers_cons_decomp k2 v2 tl2
      have hlen2 : 1 ≤ (dumpsMembers (JsonMembers.cons k2 v2 tl2)).length := by
        rw [hZ2]
        simp
      have hlen1 : (dumpsMembers (JsonMembers.cons k v (JsonMembers.cons k2 v2 tl2))).length =
          (escapeStr k).length + 4 + (dumps v).length + 2 +
          (dumpsMembers (JsonMembers.cons k2 v2 tl2)).length := by
        rw [dumpsMembers, dumpStr]
        simp
        omega
      obtain ⟨f, rfl⟩ : ∃ f, fuel = f + 1 := ⟨fuel - 1, by omega⟩
      rw [show dumpsMembers (JsonMembers.cons k v (JsonMembers.cons k2 v2 tl2)) ++ rest =
          '"' :: (escapeStr k ++ '"' :: (':' :: ' ' :: (dumps v ++ (',' :: ' ' ::
            (dumpsMembers (JsonMembers.cons k2 v2 tl2) ++ rest))))) from by
        rw [dumpsMembers, dumpStr]
        simp]
      show (match parseStringBody (escapeStr k ++ '"' :: (':' :: ' ' :: (dumps v ++ (',' :: ' ' ::
            (dumpsMembers (JsonMembers.cons k2 v2 tl2) ++ rest))))) with
        | some (kk, r) =>
          match skipWs r with
          | ':' :: r2 =>
            match parseValue f (skipWs r2) with
            | some (vv, r3) =>
              match skipWs r3 with
              | ',' :: r4 =>
                match parseMembers f (skipWs r4) with
                | some (ms2, r5) => some (JsonMembers.cons kk vv ms2, r5)
                | none => none
              | '}' :: r4 => some (JsonMembers.cons kk vv JsonMembers.nil, r4)
              | _ => none
            | none => none
          | _ => none
        | none => none) = some (JsonMembers.cons k v (JsonMembers.cons k2 v2 tl2), rest)
      rw [parseStringBody_escape]
      show (match skipWs (':' :: ' ' :: (dumps v ++ (',' :: ' ' ::
            (dumpsMembers (JsonMembers.cons k2 v2 tl2) ++ rest)))) with
        | ':' :: r2 =>
          match parseValue f (skipWs r2) with
          | some (vv, r3) =>
            match skipWs r3 with
            | ',' :: r4 =>
              match parseMembers f (skipWs r4) with
              | some (ms2, r5) => some (JsonMembers.cons k vv ms2, r5)
              | none => none
            | '}' :: r4 => some (JsonMembers.cons k vv JsonMembers.nil, r4)
            | _ => none
          | none => none
        | _ => none) = some (JsonMembers.cons k v (JsonMembers.cons k2 v2 tl2), rest)
      rw [skipWs_cons_false _ (by decide)]
      show (match parseValue f (skipWs (' ' :: (dumps v ++ (',' :: ' ' ::
            (dumpsMembers (JsonMembers.cons k2 v2 tl2) ++ rest))))) with
        | some (vv, r3) =>
          match skipWs r3 with
          | ',' :: r4 =>
            match parseMembers f (skipWs r4) with
            | some (ms2, r5) => some (JsonMembers.cons k vv ms2, r5)
            | none => none
          | '}' :: r4 => some (JsonMembers.cons k vv JsonMembers.nil, r4)
          | _ => none
        | none => none) = some (JsonMembers.cons k v (JsonMembers.cons k2 v2 tl2), rest)
      rw [show skipWs (' ' :: (dumps v ++ (',' :: ' ' ::
          (dumpsMembers (JsonMembers.cons k2 v2 tl2) ++ rest)))) =
          skipWs (dumps v ++ (',' :: ' ' ::
          (dumpsMembers (JsonMembers.cons k2 v2 tl2) ++ rest))) from by
        rw [skipWs, if_pos (by decide)]]
      rw [skipWs_dumps]
      rw [parseValue_dumps v _ f hwfv.1 (by omega) (numSafe_comma _)]
      show (match skipWs (',' :: ' ' :: (dumpsMembers (JsonMembers.cons k2 v2 tl2) ++ rest)) with
        | ',' :: r4 =>
          match parseMembers f (skipWs r4) with
          | some (ms2, r5) => some (JsonMembers.cons k v ms2, r5)
          | none => none
        | '}' :: r4 => some (JsonMembers.cons k v JsonMembers.nil, r4)
        | _ => none) = some (JsonMembers.cons k v (JsonMembers.cons k2 v2 tl2), rest)
      rw [skipWs_cons_false _ (by decide)]
      show (match parseMembers f (skipWs (' ' :: (dumpsMembers (JsonMembers.cons k2 v2 tl2) ++ rest))) with
        | some (ms2, r5) => some (JsonMembers.cons k v ms2, r5)
        | none => none) = some (JsonMembers.cons k v (JsonMembers.cons k2 v2 tl2), rest)
      rw [show skipWs (' ' :: (dumpsMembers (JsonMembers.cons k2 v2 tl2) ++ rest)) =
          skipWs (dumpsMembers (JsonMembers.cons k2 v2 tl2) ++ rest) from by
        rw [skipWs, if_pos (by decide)]]
      rw [show dumpsMembers (JsonMembers.cons k2 v2 tl2) ++ rest =
          '"' :: ((escapeStr k2 ++ '"' :: Z2) ++ rest) from by
        rw [hZ2, List.cons_append]]
      rw [skipWs_cons_false _ (by decide)]
      rw [show ('"' :: ((escapeStr k2 ++ '"' :: Z2) ++ rest) : List Char) =
          dumpsMembers (JsonMembers.cons k2 v2 tl2) ++ rest from by
        rw [hZ2, List.cons_append]]
      rw [parseMembers_dumps (JsonMembers.cons k2 v2 tl2) rest f hwfv.2 (by omega)
        (fun h => JsonMembers.noConfusion h)]

end

/-- json.loads reads back json.dumps exactly, for every representable value. -/
theorem jsonLoads_dumps {v : Json} (h : wellFormed v = true) : jsonLoads (dumps v) = some v := by
  unfold jsonLoads
  have h1 : skipWs (dumps v) = dumps v := by
    have h2 := skipWs_dumps v []
    simpa using h2
  rw [h1]
  have h2 := parseValue_dumps v [] ((dumps v).length + 1) h (by omega) numSafe_nil
  rw [show dumps v ++ ([] : List Char) = dumps v from by simp] at h2
  rw [h2]
  rfl

/-- dropWhile is the identity on a list with no matching byte. -/
theorem dropWhile_eq_self {p : Nat → Bool} {l : List Nat} (h : ∀ b ∈ l, p b = false) :
    l.dropWhile p = l := by
  cases l with
  | nil => rfl
  | cons b bs =>
    rw [List.dropWhile_cons, if_neg (by simp [h b (by simp)])]

/-- Hexadecimal digit characters are not Python whitespace nor sign bytes. -/
theorem isHexC_byte_ranges {c : Char} (h : isHexC c = true) :
    (48 ≤ c.toNat ∧ c.toNat ≤ 57) ∨ (97 ≤ c.toNat ∧ c.toNat ≤ 102) ∨
      (65 ≤ c.toNat ∧ c.toNat ≤ 70) := by
  apply hv_isSome_ranges
  simpa [isHexC] using h

/-- hexBody on pure digit characters. -/
theorem hexBody_digits {ds : List Char} (hne : ds ≠ []) (h : ∀ c ∈ ds, isHexC c = true) :
    hexBody (ds.map Char.toNat) = some (hexAccVal 0 ds) := by
  match ds, hne, h with
  | [c], _, h =>
    rw [List.map_cons, List.map_nil, hexBody]
    rw [show ([c.toNat] : List Nat) = ([c] : List Char).map Char.toNat from rfl]
    exact hexStart_digits (by simp) h
  | c :: c2 :: cs, _, h =>
    rw [List.map_cons, List.map_cons, hexBody]
    · have h2 := isHexC_byte_ranges (h c2 (by simp))
      rw [if_neg (by rintro ⟨_, h3 | h3⟩ <;> omega)]
      rw [show (c.toNat :: c2.toNat :: List.map Char.toNat cs : List Nat) =
        (c :: c2 :: cs).map Char.toNat from rfl]
      exact hexStart_digits (by simp) h
    · intro rest2 heq
      rcases cs with _ | ⟨e, cs2⟩
      · simp at heq
      · simp at heq
        have h3 := isHexC_byte_ranges (h e (by simp))
        omega

/-- int(s, 16) on the bytes of pure hexadecimal digit characters. -/
theorem pyIntHex_digits {ds : List Char} (hne : ds ≠ []) (h : ∀ c ∈ ds, isHexC c = true) :
    pyIntHex (ds.map Char.toNat) = some ((hexAccVal 0 ds : Nat) : Int) := by
  have hnb : ∀ b ∈ ds.map Char.toNat, isPyWsB b = false := by
    intro b hb
    obtain ⟨e, he, rfl⟩ := List.mem_map.1 hb
    rcases isHexC_byte_ranges (h e he) with h2 | h2 | h2 <;>
      (simp [isPyWsB]; omega)
  have hrev : ∀ b ∈ (ds.map Char.toNat).reverse, isPyWsB b = false := by
    intro b hb
    exact hnb b (by simpa using hb)
  match ds, hne, h with
  | c :: cs, _, h =>
    have hc := isHexC_byte_ranges (h c (by simp))
    rw [pyIntHex]
    rw [dropWhile_eq_self hnb, dropWhile_eq_self hrev, List.reverse_reverse]
    show (if c.toNat = 43 then (hexBody (List.map Char.toNat cs)).map (fun n => (n : Int))
      else if c.toNat = 45 then (hexBody (List.map Char.toNat cs)).map (fun n => -(n : Int))
      else (hexBody (c.toNat :: List.map Char.toNat cs)).map (fun n => (n : Int))) =
      some ((hexAccVal 0 (c :: cs) : Nat) : Int)
    rw [if_neg (by omega), if_neg (by omega)]
    rw [show (c.toNat :: List.map Char.toNat cs) = (c :: cs).map Char.toNat from rfl]
    rw [hexBody_digits (by simp) h]
    rfl

/-- Lowercase hexadecimal digits pass the general test. -/
theorem isHexC_of_isLowerHexC {c : Char} (h : isLowerHexC c = true) : isHexC c = true := by
  simp only [isLowerHexC, decide_eq_true_eq] at h
  simp only [isHexC, hv]
  rcases h with h | h
  · rw [if_pos (by omega)]
    rfl
  · rw [if_neg (by omega), if_pos (by omega)]
    rfl

/-- natHexAux of a positive number is nonempty. -/
theorem natHexAux_ne_nil {n fuel : Nat} (h0 : n ≠ 0) (hf : n ≤ fuel) :
    natHexAux fuel n ≠ [] := by
  obtain ⟨f, rfl⟩ : ∃ f, fuel = f + 1 := ⟨fuel - 1, by omega⟩
  rw [natHexAux, if_neg h0]
  simp

/-- The padded header is nonempty. -/
theorem natHex8_ne_nil (n : Nat) : natHex8 n ≠ [] := by
  unfold natHex8
  intro h
  have h2 := List.append_eq_nil.1 h
  by_cases h0 : n = 0
  · rw [if_pos h0] at h2
    simp at h2
  · rw [if_neg h0] at h2
    exact natHexAux_ne_nil h0 (le_refl n) h2.2

/-- readline stops exactly at the first newline byte. -/
theorem readLine_append {pre post : List Nat} (h : ∀ b ∈ pre, b ≠ 10) :
    readLine (pre ++ 10 :: post) = (pre ++ [10], post) := by
  induction pre with
  | nil => rfl
  | cons b bs ih =>
    rw [List.cons_append, readLine, if_neg (h b (by simp)),
      ih (fun b2 hb2 => h b2 (by simp [hb2]))]
    rfl

/-- The frame bytes send_chunk writes, spelled as plain byte lists: the 0x
literal, the header digit bytes, the newline, the payload bytes. -/
theorem sendChunkBytes_eq (v : Json) :
    sendChunkBytes v = 48 :: 120 :: ((natHex8 (dumps v).length).map Char.toNat ++
      10 :: (dumps v).map Char.toNat) := by
  unfold sendChunkBytes sendChunk
  rw [utf8Encode_ascii ?hascii]
  case hascii =>
    intro c hc
    rcases (by simpa using hc : c = '0' ∨ c = 'x' ∨ c ∈ natHex8 (dumps v).length ∨
        c = '\n' ∨ c ∈ dumps v) with rfl | rfl | hm | rfl | hm
    · decide
    · decide
    · have h2 := natHex8_digits _ c hm
      simp only [isLowerHexC, decide_eq_true_eq] at h2
      omega
    · decide
    · have := dumps_lt128 v c hm
      omega
  show (48 : Nat) :: 120 :: List.map Char.toNat (natHex8 (dumps v).length ++ '\n' :: dumps v) =
    48 :: 120 :: ((natHex8 (dumps v).length).map Char.toNat ++ 10 :: (dumps v).map Char.toNat)
  rw [List.map_append]
  rfl

/-- get_chunk reads back exactly the frame send_chunk wrote and leaves the
rest of the stream untouched: the framing round trip over the byte stream. -/
theorem getChunk_sendChunk {v : Json} (extra : List Nat) (h : wellFormed v = true) :
    getChunk (sendChunkBytes v ++ extra) = .ok (v, extra) := by
  have hL8 : ∀ c ∈ natHex8 (dumps v).length, isLowerHexC c = true := natHex8_digits _
  rw [sendChunkBytes_eq v]
  rw [show (48 :: 120 :: ((natHex8 (dumps v).length).map Char.toNat ++
      10 :: (dumps v).map Char.toNat) ++ extra : List Nat) =
      (48 :: 120 :: (natHex8 (dumps v).length).map Char.toNat) ++
      10 :: ((dumps v).map Char.toNat ++ extra) from by simp]
  unfold getChunk
  rw [readLine_append ?hpre]
  case hpre =>
    intro b hb
    rcases (by simpa using hb : b = 48 ∨ b = 120 ∨
        b ∈ (natHex8 (dumps v).length).map Char.toNat) with rfl | rfl | hm
    · decide
    · decide
    · obtain ⟨e, he, rfl⟩ := List.mem_map.1 hm
      have h2 := hL8 e he
      simp only [isLowerHexC, decide_eq_true_eq] at h2
      omega
  have ht2 : ((48 :: 120 :: (natHex8 (dumps v).length).map Char.toNat) ++ [10]).take 2 =
      [48, 120] := rfl
  have hg : ((48 :: 120 :: (natHex8 (dumps v).length).map Char.toNat) ++ [10]).getLast? =
      some 10 := List.getLast?_concat _
  have hdigits : (((48 :: 120 :: (natHex8 (dumps v).length).map Char.toNat) ++ [10]).drop 2).dropLast =
      (natHex8 (dumps v).length).map Char.toNat := by
    rw [show ((48 :: 120 :: (natHex8 (dumps v).length).map Char.toNat) ++ [10] : List Nat) =
        48 :: 120 :: ((natHex8 (dumps v).length).map Char.toNat ++ [10]) from by simp]
    rw [List.drop_succ_cons, List.drop_succ_cons, List.drop_zero, List.dropLast_concat]
  show (if ((48 :: 120 :: (natHex8 (dumps v).length).map Char.toNat) ++ [10]).take 2 = [48, 120] then
      if ((48 :: 120 :: (natHex8 (dumps v).length).map Char.toNat) ++ [10]).getLast? = some 10 then
        match pyIntHex (((48 :: 120 :: (natHex8 (dumps v).length).map Char.toNat) ++ [10]).drop 2).dropLast with
        | some n =>
          match utf8Decode (if n < 0 then (dumps v).map Char.toNat ++ extra
              else ((dumps v).map Char.toNat ++ extra).take n.toNat) with
          | some chars =>
            match jsonLoads chars with
            | some v2 => Except.ok (v2, if n < 0 then ([] : List Nat)
                else ((dumps v).map Char.toNat ++ extra).drop n.toNat)
            | none => Except.error PyExn.jsonDecodeError
          | none => Except.error PyExn.unicodeDecodeError
        | none => Except.error PyExn.valueError
      else Except.error (PyExn.assertionError none)
    else Except.error (PyExn.assertionError none)) = Except.ok (v, extra)
  rw [if_pos ht2, if_pos hg, hdigits,
    pyIntHex_digits (natHex8_ne_nil _) (fun c hc => isHexC_of_isLowerHexC (hL8 c hc)),
    natHex8_val]
  show (match utf8Decode (if ((dumps v).length : Int) < 0 then (dumps v).map Char.toNat ++ extra
      else ((dumps v).map Char.toNat ++ extra).take ((dumps v).length : Int).toNat) with
    | some chars =>
      match jsonLoads chars with
      | some v2 => Except.ok (v2, if ((dumps v).length : Int) < 0 then ([] : List Nat)
          else ((dumps v).map Char.toNat ++ extra).drop ((dumps v).length : Int).toNat)
      | none => Except.error PyExn.jsonDecodeError
    | none => Except.error PyExn.unicodeDecodeError) = Except.ok (v, extra)
  rw [if_neg (by omega), if_neg (by omega)]
  rw [show ((dumps v).length : Int).toNat = ((dumps v).map Char.toNat).length from by simp]
  rw [List.take_left, List.drop_left]
  rw [utf8Decode_ascii (dumps_lt128 v)]
  show (match jsonLoads (dumps v) with
    | some v2 => Except.ok (v2, extra)
    | none => Except.error PyExn.jsonDecodeError) = Except.ok (v, extra)
  rw [jsonLoads_dumps h]

/-- Lower bound on natHexAux digit count. -/
theorem natHexAux_length_lower :
    ∀ fuel n k, n ≤ fuel → 16 ^ k ≤ n → k + 1 ≤ (natHexAux fuel n).length := by
  intro fuel
  induction fuel with
  | zero =>
    intro n k hn hk
    have h1 : 1 ≤ 16 ^ k := Nat.one_le_pow _ _ (by norm_num)
    omega
  | succ f ih =>
    intro n k hn hk
    have h1 : 1 ≤ 16 ^ k := Nat.one_le_pow _ _ (by norm_num)
    have h0 : n ≠ 0 := by omega
    rw [natHexAux, if_neg h0, List.length_append, List.length_singleton]
    cases k with
    | zero => omega
    | succ k2 =>
      have hq : 16 ^ k2 ≤ n / 16 := by
        rw [pow_succ] at hk
        omega
      have := ih (n / 16) k2 (by omega) hq
      omega

/-- json.dumps escaping is the identity on the letter a. -/
theorem escapeStr_replicate_a (n : Nat) :
    escapeStr (List.replicate n 'a') = List.replicate n 'a' := by
  induction n with
  | zero => rfl
  | succ m ih =>
    rw [List.replicate_succ, escapeStr, ih]
    rfl

/-- Serializing a string value yields the quoted escaped form. -/
theorem dumps_str_eq (s : List Char) : dumps (Json.str s) = dumpStr s := rfl

/-- The serialized big payload is 2^32 + 2 characters. -/
theorem bigPayload_dumps_length : (dumps bigPayload).length = 4294967298 := by
  rw [show bigPayload = Json.str (List.replicate 4294967296 'a') from rfl]
  rw [dumps_str_eq, dumpStr, escapeStr_replicate_a]
  rw [List.length_append, List.length_cons, List.length_replicate]
  rfl

/-- At 2^32 + 2 the header needs 9 digits. -/
theorem natHex8_big_length : (natHex8 4294967298).length = 9 := by
  unfold natHex8
  rw [if_neg (by norm_num)]
  have hub : (natHexAux 4294967298 4294967298).length ≤ 9 :=
    natHexAux_length 4294967298 4294967298 9 (le_refl _) (by norm_num)
  have hlb : 8 + 1 ≤ (natHexAux 4294967298 4294967298).length :=
    natHexAux_length_lower 4294967298 4294967298 8 (le_refl _) (by norm_num)
  rw [List.length_append, List.length_replicate]
  omega

/-- Popping a ticket absent from the callbacks table raises KeyError. -/
theorem popStr_absent {κ : Type} (s : List Char) :
    ∀ cbs : List (List Char × κ), keyMem s cbs = false →
      popStr cbs s = .error (.keyError (.str s))
  | [], _ => rfl
  | (k, v) :: tl, h => by
    rw [keyMem] at h
    simp only [decide_eq_true_eq, Bool.decide_or, Bool.or_eq_false_iff,
      decide_eq_false_iff_not, Bool.not_eq_true] at h
    rw [popStr, if_neg h.1, popStr_absent s tl h.2]

/-- A list of strings is wellFormed elementwise. -/
theorem wfList_of_allStr : ∀ xs : JsonList, jlAllStr xs = true → wfList xs = true
  | .nil, _ => rfl
  | .cons (.str s) tl, h => by
    rw [wfList]
    simp only [decide_eq_true_eq]
    exact ⟨rfl, wfList_of_allStr tl h⟩

/-- A four-element frame of three strings and a string list is always a
well-formed message. -/
theorem wf_frameMsg (a b c : List Char) (args : JsonList) (h : jlAllStr args = true) :
    wellFormed (Json.arr (jlist [.str a, .str b, .str c, .arr args])) = true := by
  show wfList (jlist [Json.str a, .str b, .str c, .arr args]) = true
  rw [jlist, jlist, jlist, jlist, jlist]
  rw [wfList]
  simp only [decide_eq_true_eq]
  refine ⟨rfl, ?_⟩
  rw [wfList]
  simp only [decide_eq_true_eq]
  refine ⟨rfl, ?_⟩
  rw [wfList]
  simp only [decide_eq_true_eq]
  refine ⟨rfl, ?_⟩
  rw [wfList]
  simp only [decide_eq_true_eq]
  exact ⟨wfList_of_allStr args h, rfl⟩

/-- C10: do_select_api_version returns the constant 2.5 for every proposed
version, so its result is independent of the peer's proposal. -/
theorem claim_C10 (a b : Json) :
    do_select_api_version a = .str ['2', '.', '5'] ∧
    do_select_api_version a = do_select_api_version b :=
  ⟨rfl, rfl⟩

/-- C2: framing round trip: decoding the frame written by send_chunk for any
well-formed message returns the message itself with the stream exhausted. -/
theorem claim_C2 (v : Json) (h : wellFormed v = true) :
    getChunk (sendChunkBytes v) = .ok (v, []) := by
  have h2 := getChunk_sendChunk [] h
  rwa [List.append_nil] at h2

/-- C2 at a concrete message covering null, booleans, numbers, strings,
lists and nested dicts. -/
theorem claim_C2_witness : getChunk (sendChunkBytes sampleMsg) = .ok (sampleMsg, []) :=
  claim_C2 sampleMsg (by rfl)

/-- C1 as stated fails on a message whose serialized payload reaches 2^32
characters: the header then needs nine digits, so no 8-digit header can
frame it. -/
theorem claim_C1_counterexample : ¬ claimC1Shape bigPayload := by
  intro hshape
  obtain ⟨ds, hlen, -, -, heq⟩ := hshape
  have hL := congrArg List.length heq
  rw [sendChunkBytes_eq] at hL
  rw [List.length_cons, List.length_cons, List.length_append, List.length_map,
    List.length_cons, List.length_map, bigPayload_dumps_length, natHex8_big_length] at hL
  rw [List.length_append, List.length_cons, List.length_cons, List.length_map,
    List.length_cons, utf8Encode_dumps_length, bigPayload_dumps_length, hlen] at hL
  omega

/-- C1, amended: every frame whose serialized payload is under 2^32
characters consists of 0x, exactly 8 lowercase hexadecimal digits carrying
the byte length of the UTF-8 payload, a newline, and the payload bytes. -/
theorem claim_C1 (v : Json) (h : (dumps v).length < 4294967296) : claimC1Shape v := by
  refine ⟨natHex8 (dumps v).length, natHex8_length h, natHex8_digits _, ?_, ?_⟩
  · rw [natHex8_val, utf8Encode_dumps_length]
  · rw [sendChunkBytes_eq, utf8Encode_dumps]
    simp

/-- C1 at the null message. -/
theorem claim_C1_witness : claimC1Shape Json.null :=
  claim_C1 Json.null (by decide)

/-- C9: the frame reader accepts any nonempty run of hexadecimal digits (of
either case, any length) between 0x and the newline: whenever the digits
evaluate to the payload length, the frame decodes to the message, so the
reader is strictly more permissive than the 8-digit headers it writes. -/
theorem claim_C9 (v : Json) (ds : List Char) (extra : List Nat) (hne : ds ≠ [])
    (hhex : ∀ c ∈ ds, isHexC c = true) (hval : hexAccVal 0 ds = (dumps v).length)
    (hwf : wellFormed v = true) :
    getChunk ((48 :: 120 :: ds.map Char.toNat) ++ 10 :: ((dumps v).map Char.toNat ++ extra)) =
      .ok (v, extra) := by
  unfold getChunk
  rw [readLine_append ?hpre]
  case hpre =>
    intro b hb
    rcases (by simpa using hb : b = 48 ∨ b = 120 ∨ b ∈ ds.map Char.toNat) with rfl | rfl | hm
    · decide
    · decide
    · obtain ⟨e, he, rfl⟩ := List.mem_map.1 hm
      rcases isHexC_byte_ranges (hhex e he) with h2 | h2 | h2 <;> omega
  have ht2 : ((48 :: 120 :: ds.map Char.toNat) ++ [10]).take 2 = [48, 120] := rfl
  have hg : ((48 :: 120 :: ds.map Char.toNat) ++ [10]).getLast? = some 10 :=
    List.getLast?_concat _
  have hdigits : (((48 :: 120 :: ds.map Char.toNat) ++ [10]).drop 2).dropLast =
      ds.map Char.toNat := by
    rw [show ((48 :: 120 :: ds.map Char.toNat) ++ [10] : List Nat) =
        48 :: 120 :: (ds.map Char.toNat ++ [10]) from by simp]
    rw [List.drop_succ_cons, List.drop_succ_cons, List.drop_zero, List.dropLast_concat]
  show (if ((48 :: 120 :: ds.map Char.toNat) ++ [10]).take 2 = [48, 120] then
      if ((48 :: 120 :: ds.map Char.toNat) ++ [10]).getLast? = some 10 then
        match pyIntHex (((48 :: 120 :: ds.map Char.toNat) ++ [10]).drop 2).dropLast with
        | some n =>
          match utf8Decode (if n < 0 then (dumps v).map Char.toNat ++ extra
              else ((dumps v).map Char.toNat ++ extra).take n.toNat) with
          | some chars =>
            match jsonLoads chars with
            | some v2 => Except.ok (v2, if n < 0 then ([] : List Nat)
                else ((dumps v).map Char.toNat ++ extra).drop n.toNat)
            | none => Except.error PyExn.jsonDecodeError
          | none => Except.error PyExn.unicodeDecodeError
        | none => Except.error PyExn.valueError
      else Except.error (PyExn.assertionError none)
    else Except.error (PyExn.assertionError none)) = Except.ok (v, extra)
  rw [if_pos ht2, if_pos hg, hdigits, pyIntHex_digits hne hhex, hval]
  show (match utf8Decode (if ((dumps v).length : Int) < 0 then (dumps v).map Char.toNat ++ extra
      else ((dumps v).map Char.toNat ++ extra).take ((dumps v).length : Int).toNat) with
    | some chars =>
      match jsonLoads chars with
      | some v2 => Except.ok (v2, if ((dumps v).length : Int) < 0 then ([] : List Nat)
          else ((dumps v).map Char.toNat ++ extra).drop ((dumps v).length : Int).toNat)
      | none => Except.error PyExn.jsonDecodeError
    | none => Except.error PyExn.unicodeDecodeError) = Except.ok (v, extra)
  rw [if_neg (by omega), if_neg (by omega)]
  rw [show ((dumps v).length : Int).toNat = ((dumps v).map Char.toNat).length from by simp]
  rw [List.take_left, List.drop_left]
  rw [utf8Decode_ascii (dumps_lt128 v)]
  show (match jsonLoads (dumps v) with
    | some v2 => Except.ok (v2, extra)
    | none => Except.error PyExn.jsonDecodeError) = Except.ok (v, extra)
  rw [jsonLoads_dumps hwf]

/-- C9 at a concrete frame: a single-digit header 0x4 frames the message
null. -/
theorem claim_C9_witness :
    getChunk ((48 :: 120 :: (['4'].map Char.toNat)) ++
      10 :: ((dumps Json.null).map Char.toNat ++ [7])) = .ok (Json.null, [7]) :=
  claim_C9 Json.null ['4'] [7] (by decide) (by decide) (by rfl) rfl

/-- C4: an invoke frame with ticket 5, operation echo and arguments [hi]
routed through a table holding an echo handler returning its first argument
makes the dispatcher emit exactly the reply frame return, 5, ok, hi, leave
the callbacks untouched and raise nothing. -/
theorem claim_C4 {κ : Type} (cbs : List (List Char × κ)) (extra : List Nat) :
    handleNextChunk echoTable cbs (echoFrame ++ extra) =
      ⟨[reply_ok (.str ['5']) (.str ['h', 'i'])], cbs, none, extra, none⟩ := by
  unfold handleNextChunk echoFrame
  rw [getChunk_sendChunk extra (by rfl)]
  rfl

/-- C3: the failure path crashes on non-string arguments.  First conjunct:
for the invoke frame ticket 9, operation boom, arguments [7], whose handler
raises Exception x, the eager comma join over the argument list inside the
logging call raises TypeError before reply_fail runs, so no reply is sent
and the exception kills the session.  Second conjunct: with a string
argument the join succeeds and the fail reply carries x as the spec says.
Third conjunct: a fail reply for a pending ticket raises Exception with the
payload and never reports a continuation call. -/
theorem claim_C3 :
    (handleNextChunk boomTable ([] : List (List Char × Nat)) boomFrame7 =
      ⟨[], [], none, [], some (.typeError msgJoin)⟩) ∧
    (handleNextChunk boomTable ([] : List (List Char × Nat)) boomFrameS =
      ⟨[reply_fail (.str ['9']) (.str ['x'])], [], none, [], none⟩) ∧
    (handleNextChunk hEmpty ([(['9'], 0)] : List (List Char × Nat)) failFrame9 =
      ⟨[], [], none, [], some (.exception (.str ['x']))⟩) :=
  ⟨rfl, rfl, rfl⟩

/-- C5: resolving an unknown ticket is fatal.  First conjunct: a return
frame for ticket 7 with no pending entry raises KeyError and sends nothing.
Second conjunct: after a first resolution pops the entry for ticket 7, an
identical second frame finds the table without it, so by the first conjunct
the second resolution dies with the same KeyError. -/
theorem claim_C5 {κ : Type} (cb : κ) (cbs : List (List Char × κ)) (extra : List Nat)
    (h : keyMem ['7'] cbs = false) :
    (handleNextChunk hEmpty cbs (retFrame7 ++ extra) =
      ⟨[], cbs, none, extra, some (.keyError (.str ['7']))⟩) ∧
    (handleNextChunk hEmpty ((['7'], cb) :: cbs) (retFrame7 ++ (retFrame7 ++ extra)) =
      ⟨[], cbs, some (cb, jlist [.null]), retFrame7 ++ extra, none⟩) := by
  constructor
  · unfold handleNextChunk retFrame7
    rw [getChunk_sendChunk extra (by rfl)]
    show (match popStr cbs ['7'] with
      | .error e => (⟨[], cbs, none, extra, some e⟩ : StepOut κ)
      | .ok (cb2, cbs2) => ⟨[], cbs2, some (cb2, jlist [.null]), extra, none⟩) =
      ⟨[], cbs, none, extra, some (.keyError (.str ['7']))⟩
    rw [popStr_absent ['7'] cbs h]
  · unfold handleNextChunk retFrame7
    rw [getChunk_sendChunk (sendChunkBytes (.arr (jlist [.str strReturn, .str ['7'],
      .str strOk, .arr (jlist [.null])])) ++ extra) (by rfl)]
    rfl

/-- C5 at the empty table: the first return frame for ticket 7 dies with
KeyError, and with one pending entry the first frame resolves it and leaves
the table empty. -/
theorem claim_C5_witness :
    (handleNextChunk hEmpty ([] : List (List Char × Nat)) (retFrame7 ++ []) =
      ⟨[], [], none, [], some (.keyError (.str ['7']))⟩) ∧
    (handleNextChunk hEmpty ([(['7'], 0)] : List (List Char × Nat))
      (retFrame7 ++ (retFrame7 ++ [])) =
      ⟨[], [], some (0, jlist [.null]), retFrame7 ++ [], none⟩) :=
  claim_C5 0 [] [] rfl

/-- C6 as stated fails: the fail payload for the unknown operation nosuch is
the Python repr of the operation name, in quotes, not the fixed text unknown
operation. -/
theorem claim_C6_counterexample :
    (handleNextChunk hEmpty ([] : List (List Char × Nat)) nosuchFrame).sent ≠
      [reply_fail (.str ['9']) (.str strUnknownOp)] := by
  decide

/-- C6, amended: an invoke frame whose operation O is an ASCII name absent
from the handler table and whose arguments are all strings makes the
dispatcher catch KeyError(O) and emit the fail reply whose payload is the
repr of O (the quoted operation name, from str of the KeyError), with the
session surviving.  The ASCII hypothesis keeps the statement inside the
domain where strRepr coincides with Python repr; for non-printable
characters above delete, repr adds escapes the model does not. -/
theorem claim_C6 {κ : Type} (H : Handlers) (T O : List Char) (args : JsonList)
    (cbs : List (List Char × κ)) (extra : List Nat)
    (hO : H O = none) (hargs : jlAllStr args = true)
    (hascii : ∀ c ∈ O, c.toNat < 128) :
    handleNextChunk H cbs
      (sendChunkBytes (.arr (jlist [.str strInvoke, .str T, .str O, .arr args])) ++ extra) =
      ⟨[reply_fail (.str T) (.str (strRepr O))], cbs, none, extra, none⟩ := by
  unfold handleNextChunk
  rw [getChunk_sendChunk extra (wf_frameMsg strInvoke T O args hargs)]
  show (match tryInvoke H (.str O) (.arr args) with
    | .ok resp => (⟨[reply_ok (.str T) resp], cbs, none, extra, none⟩ : StepOut κ)
    | .error e =>
      if joinOk (.arr args) then
        ⟨[reply_fail (.str T) (.str (exnStr e))], cbs, none, extra, none⟩
      else ⟨[], cbs, none, extra, some (.typeError msgJoin)⟩) =
    ⟨[reply_fail (.str T) (.str (strRepr O))], cbs, none, extra, none⟩
  rw [show tryInvoke H (.str O) (.arr args) = .error (.keyError (.str O)) from by
    show (match H O with
      | some hdl =>
        match hdl args with
        | HResult.ok v => Except.ok v
        | HResult.raise e => Except.error e
      | none => Except.error (PyExn.keyError (Json.str O))) =
      Except.error (PyExn.keyError (Json.str O))
    rw [hO]]
  show (if joinOk (.arr args) then
      (⟨[reply_fail (.str T) (.str (exnStr (.keyError (.str O))))], cbs, none, extra,
        none⟩ : StepOut κ)
    else ⟨[], cbs, none, extra, some (.typeError msgJoin)⟩) =
    ⟨[reply_fail (.str T) (.str (strRepr O))], cbs, none, extra, none⟩
  rw [show joinOk (Json.arr args) = true from hargs]
  rfl

/-- C6 at the concrete frame for operation nosuch: the payload is the quoted
name. -/
theorem claim_C6_witness :
    handleNextChunk hEmpty ([] : List (List Char × Nat)) (nosuchFrame ++ []) =
      ⟨[reply_fail (.str ['9']) (.str (strRepr ['n', 'o', 's', 'u', 'c', 'h']))], [],
        none, [], none⟩ :=
  claim_C6 hEmpty ['9'] ['n', 'o', 's', 'u', 'c', 'h'] (jlist []) [] [] rfl rfl (by decide)

/-- C7 as stated fails: processing an ok reply whose payload list holds two
strings reports the continuation called with the two star-unpacked
arguments, not with the payload as a single value. -/
theorem claim_C7_counterexample :
    (handleNextChunk hEmpty ([(['7'], 0)] : List (List Char × Nat)) retFrame7ab).contCall ≠
      some (0, jlist [.arr (jlist [.str ['a'], .str ['b']])]) := by
  intro h
  have h2 : some ((0 : Nat), jlist [Json.str ['a'], Json.str ['b']]) =
      some ((0 : Nat), jlist [Json.arr (jlist [Json.str ['a'], Json.str ['b']])]) := h
  injection h2 with h3
  have h4 : jlist [Json.str ['a'], Json.str ['b']] =
      jlist [Json.arr (jlist [Json.str ['a'], Json.str ['b']])] := congrArg Prod.snd h3
  injection h4 with h5 h6
  exact Json.noConfusion h5

/-- C7, amended: an ok reply for a pending ticket removes the entry at once
and calls the stored continuation with the star-unpacked elements of the
payload list (cb applied to the unpacked payload, not to one value). -/
theorem claim_C7 {κ : Type} (H : Handlers) (cb : κ) (cbs : List (List Char × κ))
    (T : List Char) (payload : JsonList) (extra : List Nat)
    (hstr : jlAllStr payload = true) :
    handleNextChunk H ((T, cb) :: cbs)
      (sendChunkBytes (.arr (jlist [.str strReturn, .str T, .str strOk,
        .arr payload])) ++ extra) =
      ⟨[], cbs, some (cb, payload), extra, none⟩ := by
  unfold handleNextChunk
  rw [getChunk_sendChunk extra (wf_frameMsg strReturn T strOk payload hstr)]
  show (match popStr ((T, cb) :: cbs) T with
    | .error e => (⟨[], (T, cb) :: cbs, none, extra, some e⟩ : StepOut κ)
    | .ok (cb2, cbs2) => ⟨[], cbs2, some (cb2, payload), extra, none⟩) =
    ⟨[], cbs, some (cb, payload), extra, none⟩
  rw [popStr, if_pos rfl]

/-- C7 at a concrete reply frame: ticket 7 with payload [a, b]. -/
theorem claim_C7_witness :
    handleNextChunk hEmpty ([(['7'], 0)] : List (List Char × Nat)) (retFrame7ab ++ []) =
      ⟨[], [], some (0, jlist [.str ['a'], .str ['b']]), [], none⟩ :=
  claim_C7 hEmpty 0 [] ['7'] (jlist [.str ['a'], .str ['b']]) [] rfl

/-- The tickets of N sequential invoke calls are the decimal strings of the
N counter values from the starting nextTicket. -/
theorem invokeSeq_tickets {κ : Type} (cb : κ) (op : List Char) (args : JsonList) :
    ∀ (N : Nat) (s : ClientState κ),
      (invokeSeq cb op args s N).1 = (List.range N).map (fun i => natDec (s.nextTicket + i))
  | 0, _ => rfl
  | N + 1, s => by
    have ih := invokeSeq_tickets cb op args N
      ⟨s.nextTicket + 1, dictSet s.callbacks (natDec s.nextTicket) cb⟩
    show natDec s.nextTicket ::
        (invokeSeq cb op args
          ⟨s.nextTicket + 1, dictSet s.callbacks (natDec s.nextTicket) cb⟩ N).1 =
      (List.range (N + 1)).map (fun i => natDec (s.nextTicket + i))
    rw [ih, List.range_succ_eq_map, List.map_cons, List.map_map]
    congr 1
    congr 1
    funext i
    show natDec (s.nextTicket + 1 + i) = natDec (s.nextTicket + (i + 1))
    congr 1
    omega

/-- C8: N sequential invoke calls yield the tickets str(t), str(t+1), ...,
str(t+N-1) from the counter t; these are pairwise distinct, and when every
pending ticket decodes from a counter value already consumed, the next
ticket to be allocated is not among the pending ones. -/
theorem claim_C8 {κ : Type} (cb : κ) (op : List Char) (args : JsonList)
    (s : ClientState κ) (N : Nat)
    (hinv : ∀ k, keyMem k s.callbacks = true → ∃ m, m < s.nextTicket ∧ k = natDec m) :
    (invokeSeq cb op args s N).1 =
      (List.range N).map (fun i => natDec (s.nextTicket + i)) ∧
    ((invokeSeq cb op args s N).1).Nodup ∧
    keyMem (natDec s.nextTicket) s.callbacks = false := by
  refine ⟨invokeSeq_tickets cb op args N s, ?_, ?_⟩
  · rw [invokeSeq_tickets cb op args N s]
    have hinj : Function.Injective (fun i => natDec (s.nextTicket + i)) := by
      intro a b hab
      have h3 := natDec_inj hab
      omega
    exact (List.nodup_range N).map hinj
  · cases h2 : keyMem (natDec s.nextTicket) s.callbacks with
    | false => rfl
    | true =>
      obtain ⟨m, hm, he⟩ := hinv _ h2
      exact absurd (natDec_inj he) (by omega)

/-- C8 from the initial state: three invoke calls allocate the tickets of
counters 1, 2, 3, mutually distinct, and ticket 1 is not pending
beforehand. -/
theorem claim_C8_witness :
    (invokeSeq (0 : Nat) ['o', 'p'] .nil ⟨1, []⟩ 3).1 =
      (List.range 3).map (fun i => natDec (1 + i)) ∧
    ((invokeSeq (0 : Nat) ['o', 'p'] .nil ⟨1, []⟩ 3).1).Nodup ∧
    keyMem (natDec 1) ([] : List (List Char × Nat)) = false :=
  claim_C8 0 ['o', 'p'] .nil ⟨1, []⟩ 3 (fun _ h => Bool.noConfusion h)
